import Mathlib

/-!
Verification of the javaspectre-core repository against its natural-language
specification.

The development shallowly embeds the three Rust source files:

* src/src/excavation_safety_profile.rs  (SafetyGate: budgets, classification,
  deep-pass admission, text redaction)
* src/crates/virtual-object-atlas/src/lib.rs  (SnapshotLedger kernel and the
  combined governance gate)
* src/src/biospectre/secure_ar_context.rs  (PolicyRegistry, AuditSeal, secure
  AR context)

Modelling conventions:

* Rust f32/f64 score fields are modelled as rationals: every operation the
  code performs on them is a subtraction or an order comparison against a
  constant, so the decision structure is represented exactly.
* Rust u64/u32 counters are modelled as Nat (no claim probes overflow).
* std::time::Duration and SystemTime are modelled as a rational number of
  seconds respectively an abstract Nat timestamp.
* Effectful inputs (Uuid::new_v4, SystemTime::now) become explicit arguments.
* The injected audit callback (Fn(AuditEvent)) is modelled by returning the
  list of events emitted by a call.
-/

namespace Javaspectre

/-! ## ExcavationSafetyProfile (src/src/excavation_safety_profile.rs)

The Rust struct additionally carries a private field redact_patterns; its only
constructor (new, also used by Default) always stores the same three fixed
regexes, so redaction is modelled separately by fixed pattern definitions
further below. -/

structure ExcavationSafetyProfile where
  profile_name : String
  node_budget : Nat
  trace_span_budget : Nat
  deep_pass_budget : Nat
  /-- Duration, modelled as a rational number of seconds. -/
  max_run_duration : ℚ
  min_confidence_for_auto_use : ℚ
  min_confidence_for_display : ℚ
  max_drift_for_auto_use : ℚ
  max_drift_for_citizen_ui : ℚ
deriving Repr

namespace ExcavationSafetyProfile

/-- Embeds ExcavationSafetyProfile::new (lines 31-53): the fixed defaults. -/
def new (profile_name : String) : ExcavationSafetyProfile :=
  { profile_name := profile_name
    node_budget := 20000
    trace_span_budget := 50000
    deep_pass_budget := 2000
    max_run_duration := 15
    min_confidence_for_auto_use := 0.85
    min_confidence_for_display := 0.40
    max_drift_for_auto_use := 0.20
    max_drift_for_citizen_ui := 0.60 }

/-- Embeds impl Default for ExcavationSafetyProfile (lines 24-28). -/
def default : ExcavationSafetyProfile := new "default"

/-- Embeds ExcavationSafetyProfile::should_enter_deep_pass (lines 57-63). -/
def should_enter_deep_pass (self : ExcavationSafetyProfile)
    (estimated_value_score cost_score : ℚ) : Bool :=
  if self.deep_pass_budget = 0 then
    false
  else
    let decision_score := estimated_value_score - cost_score
    decide ((0.25 : ℚ) ≤ decision_score)

/-- Embeds ExcavationSafetyProfile::classify_object (lines 67-75). -/
def classify_object (self : ExcavationSafetyProfile)
    (confidence drift : ℚ) : String :=
  if self.min_confidence_for_auto_use ≤ confidence ∧
      drift ≤ self.max_drift_for_auto_use then
    "auto-use"
  else if self.min_confidence_for_display ≤ confidence ∧
      drift ≤ self.max_drift_for_citizen_ui then
    "show-with-warning"
  else
    "quarantine"

/-- Embeds the violation-collecting loop body of
ExcavationSafetyProfile::enforce_budgets (lines 86-99): the four pushes, in
source order. -/
def budget_violations (self : ExcavationSafetyProfile)
    (nodes spans deep_candidates : Nat) (run_duration : ℚ) : List String :=
  (if nodes > self.node_budget then ["nodeBudget"] else []) ++
  (if spans > self.trace_span_budget then ["traceSpanBudget"] else []) ++
  (if deep_candidates > self.deep_pass_budget then ["deepPassBudget"] else []) ++
  (if run_duration > self.max_run_duration then ["maxRunSeconds"] else [])

/-- Embeds ExcavationSafetyProfile::enforce_budgets (lines 79-106). -/
def enforce_budgets (self : ExcavationSafetyProfile)
    (nodes spans deep_candidates : Nat) (run_duration : ℚ) :
    Except (List String) Unit :=
  let violations := self.budget_violations nodes spans deep_candidates run_duration
  if violations.isEmpty then .ok () else .error violations

end ExcavationSafetyProfile

/-- Profile with a zero deep-pass budget, used to exercise the early return of
should_enter_deep_pass. -/
def zeroDeepPassProfile : ExcavationSafetyProfile :=
  { ExcavationSafetyProfile.new "default" with deep_pass_budget := 0 }

end Javaspectre

namespace Javaspectre

/-! ## Virtual-object atlas (src/crates/virtual-object-atlas/src/lib.rs) -/

/-- Embeds enum VirtualObjectKind (lines 21-32). -/
inductive VirtualObjectKind where
  | MermaidDiagram
  | OpenTelemetrySpanGraph
  | DomSheet
  | JsonSchema
  | AlnPlan
  | RustCrate
  | JsModule
  | LuaModule
  | AutomationJob
deriving DecidableEq, Repr

/-- Embeds enum TrustTier (lines 34-40). -/
inductive TrustTier where
  | Ephemeral
  | LabExperiment
  | StableInternal
  | ProductionCritical
deriving DecidableEq, Repr

/-- Embeds enum GovernanceRequirement (lines 43-48). -/
inductive GovernanceRequirement where
  | None
  | RequiresGovernance
  | RequiresMultisig
deriving DecidableEq, Repr

/-- Embeds struct VirtualObjectId (line 53); the wrapped Uuid is abstracted
to a Nat. -/
structure VirtualObjectId where
  uuid : Nat
deriving DecidableEq, Repr

/-- Embeds struct DriftMetrics (lines 55-65); f64 scores as rationals. -/
structure DriftMetrics where
  drift_score : ℚ
  structural_delta : ℚ
  semantic_delta : ℚ
  note : Option String
deriving DecidableEq, Repr

/-- Embeds struct StabilityMetrics (lines 67-75). -/
structure StabilityMetrics where
  stability : ℚ
  novelty : ℚ
  revision_count : Nat
deriving DecidableEq, Repr

/-- Modelled from the spec: EvidenceBundle lives in the external
bioscale_upgrade_store crate (not under src/); the spec treats it as an
opaque evidence bundle reference, so it is a bare token here. -/
structure EvidenceBundle where
  ref : Nat
deriving DecidableEq, Repr

/-- Embeds struct VirtualObjectDescriptor (lines 77-94); SystemTime fields
are abstract Nat timestamps, Uuid references are Nat. -/
structure VirtualObjectDescriptor where
  id : VirtualObjectId
  kind : VirtualObjectKind
  trust_tier : TrustTier
  governance : GovernanceRequirement
  name : String
  origin_uri : String
  created_at : Nat
  updated_at : Nat
  evidence : EvidenceBundle
  stability : StabilityMetrics
  drift : DriftMetrics
  content_hash_hex : String
  anchor_manifest_id : Option Nat
deriving DecidableEq, Repr

/-- Embeds struct GraphTopologyStats (lines 98-107). -/
structure GraphTopologyStats where
  node_count : Nat
  edge_count : Nat
  max_depth : Nat
  max_fan_in : Nat
  max_fan_out : Nat
  edge_density : ℚ
deriving DecidableEq, Repr

/-- Embeds struct GraphSafetyProfile (lines 109-118). -/
structure GraphSafetyProfile where
  max_nodes : Nat
  max_depth : Nat
  max_edge_density : ℚ
  max_fan_in : Nat
  max_fan_out : Nat
  max_drift_for_auto_use : ℚ
deriving DecidableEq, Repr

/-- Stand-in for serde_json::Value: the snapshot payload is never inspected
by the code under verification, so it is kept as a raw string. -/
structure JsonPayload where
  raw : String
deriving DecidableEq, Repr

/-- Embeds struct AtlasSnapshotRecord (lines 122-135). -/
structure AtlasSnapshotRecord where
  id : Nat
  virtual_object_id : VirtualObjectId
  version : Nat
  captured_at : Nat
  snapshot_json : JsonPayload
  topology : Option GraphTopologyStats
  stability : StabilityMetrics
  drift : DriftMetrics
  auto_use_allowed : Bool
deriving DecidableEq, Repr

/-- Embeds struct ExcavationMetricsRecord (lines 138-146). -/
structure ExcavationMetricsRecord where
  id : Nat
  virtual_object_id : VirtualObjectId
  captured_at : Nat
  stability : StabilityMetrics
  drift : DriftMetrics
  notes : Option String
deriving DecidableEq, Repr

/-- Stand-in for anyhow::Error: an error message string. -/
abbrev AtlasError := String

/-- Embeds struct SqliteVirtualObjectKernel (lines 187-190). -/
structure SqliteVirtualObjectKernel where
  db_path : String
  graph_safety_profile : GraphSafetyProfile
deriving Repr

namespace SqliteVirtualObjectKernel

/-- Embeds SqliteVirtualObjectKernel::insert_snapshot (lines 216-241).
The Rust method takes the Uuid::new_v4 and SystemTime::now effects
implicitly; they become the explicit fresh_id and now arguments. The method
takes mut self but reads and writes no state: it builds the record from its
arguments alone (the SQLite persistence is only a comment in the source) and
always returns Ok. -/
def insert_snapshot (self : SqliteVirtualObjectKernel) (fresh_id now : Nat)
    (obj_id : VirtualObjectId) (version : Nat) (snapshot_json : JsonPayload)
    (topo : Option GraphTopologyStats) (stability : StabilityMetrics)
    (drift : DriftMetrics) : Except AtlasError AtlasSnapshotRecord :=
  let auto_use_allowed :=
    decide (drift.drift_score ≤ self.graph_safety_profile.max_drift_for_auto_use)
  let rec0 : AtlasSnapshotRecord :=
    { id := fresh_id
      virtual_object_id := obj_id
      version := version
      captured_at := now
      snapshot_json := snapshot_json
      topology := topo
      stability := stability
      drift := drift
      auto_use_allowed := auto_use_allowed }
  .ok rec0

/-- Embeds SqliteVirtualObjectKernel::latest_snapshot (lines 243-249): the
body ignores the object id and returns Ok(None). -/
def latest_snapshot (self : SqliteVirtualObjectKernel)
    (obj_id : VirtualObjectId) : Except AtlasError (Option AtlasSnapshotRecord) :=
  .ok none

/-- Embeds SqliteVirtualObjectKernel::record_excavation_metrics
(lines 251-258). -/
def record_excavation_metrics (self : SqliteVirtualObjectKernel)
    (obj_id : VirtualObjectId) (metrics : ExcavationMetricsRecord) :
    Except AtlasError Unit :=
  .ok ()

/-- Embeds SqliteVirtualObjectKernel::may_auto_use (lines 260-267). -/
def may_auto_use (self : SqliteVirtualObjectKernel)
    (obj : VirtualObjectDescriptor) : Bool :=
  match obj.governance with
  | .None => true
  | .RequiresGovernance | .RequiresMultisig =>
      decide (obj.drift.drift_score ≤ self.graph_safety_profile.max_drift_for_auto_use)

end SqliteVirtualObjectKernel

/-- Embeds struct ExcavationResult (lines 272-277). -/
structure ExcavationResult where
  object : VirtualObjectDescriptor
  snapshot : AtlasSnapshotRecord
  metrics_record : ExcavationMetricsRecord
deriving DecidableEq, Repr

/-- Embeds fn apply_excavation_update (lines 279-315) instantiated at the
repository's only kernel implementation, SqliteVirtualObjectKernel. The
trait calls resolve to the methods above; the Uuid::new_v4 calls inside
insert_snapshot and for the metrics record id, and SystemTime::now, become
the explicit fresh_snapshot_id, fresh_metrics_id and now arguments. -/
def apply_excavation_update (kernel : SqliteVirtualObjectKernel)
    (fresh_snapshot_id fresh_metrics_id now : Nat)
    (descriptor : VirtualObjectDescriptor) (snapshot_json : JsonPayload)
    (topo : Option GraphTopologyStats) (stability : StabilityMetrics)
    (drift : DriftMetrics) : Except AtlasError ExcavationResult := do
  let obj_id := descriptor.id
  let version := descriptor.stability.revision_count + 1
  let snap ← kernel.insert_snapshot fresh_snapshot_id now obj_id version
    snapshot_json topo stability drift
  let metrics : ExcavationMetricsRecord :=
    { id := fresh_metrics_id
      virtual_object_id := obj_id
      captured_at := snap.captured_at
      stability := stability
      drift := drift
      notes := none }
  let _ ← kernel.record_excavation_metrics obj_id metrics
  .ok { object := descriptor, snapshot := snap, metrics_record := metrics }

/-! ## Governance gate (lines 322-347) -/

/-- Modelled from the spec: CargoEnvDescriptor lives in the external
reality_os crate (not under src/); the spec describes the environment
qualifier as a boolean capability query, so the descriptor carries exactly
that flag. -/
structure CargoEnvDescriptor where
  bci_safety_qualified : Bool
deriving DecidableEq, Repr

/-- Modelled from the spec: the environment qualifier's boolean capability
query, named as in the call site env.is_bci_safety_qualified(). -/
def CargoEnvDescriptor.is_bci_safety_qualified (self : CargoEnvDescriptor) : Bool :=
  self.bci_safety_qualified

/-- Modelled from the spec: HostBudget lives in the external
bioscale_upgrade_store crate (not under src/); the spec describes it as two
scalar remaining-resource fields, with the field names used by the gate. -/
structure HostBudget where
  remaining_energy_joules : ℚ
  remaining_protein_grams : ℚ
deriving DecidableEq, Repr

/-- Embeds fn atlas_auto_use_gate (lines 322-347): environment check, host
envelope checks, then the governance-aware drift rule with the literal 0.3
ceiling. The function takes no profile argument, so the ceiling is
independent of any GraphSafetyProfile.max_drift_for_auto_use. -/
def atlas_auto_use_gate (env : CargoEnvDescriptor) (host : HostBudget)
    (obj : VirtualObjectDescriptor) : Bool :=
  if !env.is_bci_safety_qualified then
    false
  else if host.remaining_energy_joules ≤ 0 then
    false
  else if host.remaining_protein_grams ≤ 0 then
    false
  else
    match obj.governance with
    | .None => true
    | .RequiresGovernance | .RequiresMultisig =>
        decide (obj.drift.drift_score ≤ (0.3 : ℚ))


/-! ## Concrete atlas fixtures -/

/-- Fixed graph-safety profile for concrete evaluations. -/
def sampleGraphProfile : GraphSafetyProfile :=
  { max_nodes := 500
    max_depth := 12
    max_edge_density := 0.5
    max_fan_in := 8
    max_fan_out := 8
    max_drift_for_auto_use := 0.2 }

/-- Concrete kernel for concrete evaluations. -/
def sampleKernel : SqliteVirtualObjectKernel :=
  { db_path := "atlas.db", graph_safety_profile := sampleGraphProfile }

/-- Concrete stability metrics for concrete evaluations. -/
def sampleStability : StabilityMetrics :=
  { stability := 0.9, novelty := 0.1, revision_count := 0 }

/-- Concrete drift metrics for concrete evaluations. -/
def sampleDrift : DriftMetrics :=
  { drift_score := 0, structural_delta := 0, semantic_delta := 0, note := none }


/-! ## Secure AR context (src/src/biospectre/secure_ar_context.rs)

The injected audit callback audit_fn (an Fn(AuditEvent) closure) is modelled
by making every guarded operation return the list of audit events it emits
during the call, in emission order. -/

/-- Embeds enum CitizenSafetyMode (lines 15-20). -/
inductive CitizenSafetyMode where
  | Public
  | Private
  | Research
deriving DecidableEq, Repr

/-- Embeds struct RuntimePolicy (lines 111-118). -/
structure RuntimePolicy where
  domain : String
  allow_telemetry : Bool
  allow_cross_origin_introspection : Bool
  allowed_sdks : List String
  citizen_mode : CitizenSafetyMode
deriving DecidableEq, Repr

/-- Embeds impl Default for RuntimePolicy (lines 120-130). -/
def RuntimePolicy.default : RuntimePolicy :=
  { domain := "unknown"
    allow_telemetry := false
    allow_cross_origin_introspection := false
    allowed_sdks := []
    citizen_mode := .Private }

/-- Embeds struct RuntimePolicyRegistry (lines 133-136); the HashMap is
modelled as an association list keyed by domain name (set_policy inserts
with replacement, so keys are looked up first-match). -/
structure RuntimePolicyRegistry where
  policies : List (String × RuntimePolicy)
deriving DecidableEq, Repr

/-- Embeds RuntimePolicyRegistry::policy_for (lines 143-151). -/
def RuntimePolicyRegistry.policy_for (self : RuntimePolicyRegistry)
    (domain : String) : RuntimePolicy :=
  match self.policies.lookup domain with
  | some p => p
  | none => { RuntimePolicy.default with domain := domain }

/-- Embeds struct AuditEvent (lines 155-160); the SystemTime timestamp is an
abstract Nat, the details HashMap an association list in insertion order. -/
structure AuditEvent where
  kind : String
  timestamp : Nat
  details : List (String × String)
deriving DecidableEq, Repr

/-- Embeds RuntimeIntrospectionSeal::guard_cross_origin (lines 180-196); the
seal's captured policy is passed directly, SystemTime::now becomes the now
argument, and the audit_fn invocations are returned as the event list. -/
def guard_cross_origin (policy : RuntimePolicy) (now : Nat)
    (operation source target : String) :
    Except String Unit × List AuditEvent :=
  if !policy.allow_cross_origin_introspection then
    (.error "Cross-origin introspection blocked by policy",
      [{ kind := "cross-origin-block"
         timestamp := now
         details := [("operation", operation), ("source_origin", source),
           ("target_origin", target)] }])
  else
    (.ok (), [])

/-- Embeds RuntimeIntrospectionSeal::guard_telemetry (lines 198-214): when
telemetry is disallowed outright the call emits a telemetry-block event and
returns false; otherwise it returns whether sdk_name is in the allow-list,
emitting nothing on that path. -/
def guard_telemetry (policy : RuntimePolicy) (now : Nat)
    (sdk_name action : String) : Bool × List AuditEvent :=
  if !policy.allow_telemetry then
    (false,
      [{ kind := "telemetry-block"
         timestamp := now
         details := [("sdk", sdk_name), ("action", action)] }])
  else
    (policy.allowed_sdks.any (fun s => s == sdk_name), [])

/-- Embeds enum ARVirtualType (lines 232-239). -/
inductive ARVirtualType where
  | Portal
  | Marker
  | Overlay
  | GovernancePanel
  | SafetyBeacon
deriving DecidableEq, Repr

/-- Embeds struct Geometry (lines 242-251); f32 coordinates as rationals. -/
structure Geometry where
  x : ℚ
  y : ℚ
  z : ℚ
  yaw : ℚ
  pitch : ℚ
  roll : ℚ
  scale : ℚ
deriving DecidableEq, Repr

/-- Embeds struct LedgerAnchor (lines 254-259). -/
structure LedgerAnchor where
  chain_id : String
  tx_id : String
  local_proof_hex : String
deriving DecidableEq, Repr

/-- Embeds struct ARVirtualObject (lines 262-271). -/
structure ARVirtualObject where
  id : String
  owner : String
  vtype : ARVirtualType
  geometry : Geometry
  policy_tags : List String
  ledger_anchor : Option LedgerAnchor
  created_at : Nat
deriving DecidableEq, Repr

/-- Embeds struct CitizenXRProfile (lines 85-94). -/
structure CitizenXRProfile where
  did : String
  safety_mode : CitizenSafetyMode
  allow_high_frequency_sensors : Bool
  allow_cross_device_correlation : Bool
  allow_ar_ads : Bool
  governance_keys : List String
  audit_trail_refs : List String
deriving DecidableEq, Repr

/-- Embeds CitizenXRProfile::mode_label (lines 101-107). -/
def CitizenXRProfile.mode_label (self : CitizenXRProfile) : String :=
  match self.safety_mode with
  | .Public => "CITIZEN_MODE_PUBLIC"
  | .Private => "CITIZEN_MODE_PRIVATE"
  | .Research => "CITIZEN_MODE_RESEARCH"

/-- Embeds SecureArContext::create_ar_object (lines 335-376), parameterized
by the context's citizen profile (the only context state the method reads
besides the seal's audit_fn); SystemTime::now becomes the now argument and
the audit_fn invocation is returned as the event list. In Public citizen
mode, creation is rejected with no audit event unless a safe policy tag is
present; on success an ar-object-created event is emitted. -/
def create_ar_object (citizen_profile : CitizenXRProfile) (now : Nat)
    (id owner : String) (vtype : ARVirtualType) (geometry : Geometry)
    (policy_tags : List String) :
    Except String ARVirtualObject × List AuditEvent :=
  let blocked :=
    match citizen_profile.safety_mode with
    | .Public =>
        !(policy_tags.any (fun t =>
            t == "safety:noninvasive" || t == "privacy:local-only"))
    | _ => false
  if blocked then
    (.error "Citizen mode PUBLIC requires noninvasive/local-only policy tags", [])
  else
    let obj : ARVirtualObject :=
      { id := id
        owner := owner
        vtype := vtype
        geometry := geometry
        policy_tags := policy_tags
        ledger_anchor := none
        created_at := now }
    (.ok obj,
      [{ kind := "ar-object-created"
         timestamp := now
         details := [("id", obj.id), ("owner", obj.owner),
           ("mode", citizen_profile.mode_label)] }])


/-! ## Concrete policy fixtures -/

/-- Policy that allows telemetry but has an empty SDK allow-list; used to
exercise the allow-list-miss branch of guard_telemetry. -/
def telemetryOnPolicy : RuntimePolicy :=
  { domain := "example.org"
    allow_telemetry := true
    allow_cross_origin_introspection := false
    allowed_sdks := []
    citizen_mode := .Private }

/-- Citizen profile in Public safety mode, used to exercise the public-mode
creation rejection. -/
def publicCitizenProfile : CitizenXRProfile :=
  { did := "did:aln:alice"
    safety_mode := .Public
    allow_high_frequency_sensors := false
    allow_cross_device_correlation := false
    allow_ar_ads := false
    governance_keys := []
    audit_trail_refs := [] }

/-- Neutral geometry for concrete evaluations. -/
def sampleGeometry : Geometry :=
  { x := 0, y := 0, z := 0, yaw := 0, pitch := 0, roll := 0, scale := 1 }

/-! ## Text redaction (excavation_safety_profile.rs, lines 31-39 and 108-115)

ExcavationSafetyProfile::redact_text folds Regex::replace_all over the three
fixed patterns compiled in new():

  1. SSN-like       \b[0-9]{3}-[0-9]{2}-[0-9]{4}\b
  2. card-like      \b[0-9]{16}\b
  3. email     (?i) \b[A-Za-z0-9._%+-]+@[A-Za-z0-9.-]+\.[A-Z]{2,}\b

replacing every match with "[REDACTED]". The embedding models the rust
regex crate semantics for exactly these patterns: leftmost-first search,
greedy repetition with backtracking, and the word boundary assertion. A
match attempt at a position is a function of the word-ness of the preceding
character (pw) and the suffix starting at that position; find/replace thread
that word-ness exactly as the engine evaluates look-behind against the
original haystack, and replace_all rescans from the end of each match.
Characters are treated at ASCII granularity, as written in the patterns. -/

/-- Class [0-9], as used by patterns 1 and 2. -/
def isDigit09 (c : Char) : Bool := '0' ≤ c && c ≤ '9'

/-- Class [A-Za-z], the case-insensitive reading of [A-Z] in pattern 3. -/
def isAsciiAlpha (c : Char) : Bool :=
  ('A' ≤ c && c ≤ 'Z') || ('a' ≤ c && c ≤ 'z')

/-- Word characters for the boundary assertion: [A-Za-z0-9_]. -/
def isWordChar (c : Char) : Bool := isAsciiAlpha c || isDigit09 c || c == '_'

/-- Class [A-Za-z0-9._%+-], the local part of pattern 3. -/
def isLocalChar (c : Char) : Bool :=
  isWordChar c || c == '.' || c == '%' || c == '+' || c == '-'

/-- Class [A-Za-z0-9.-], the domain part of pattern 3. -/
def isDomainChar (c : Char) : Bool :=
  isAsciiAlpha c || isDigit09 c || c == '.' || c == '-'

/-- Word-ness of the first character of a suffix (false at end of text). -/
def headWord : List Char → Bool
  | [] => false
  | c :: _ => isWordChar c

/-- Word-ness of the last character of a list (false when empty). -/
def lastWord (l : List Char) : Bool :=
  match l.getLast? with
  | some c => isWordChar c
  | none => false

/-- Word-ness of the character preceding the suffix obtained by consuming u,
starting from preceding word-ness pw. -/
def pwAfter (pw : Bool) (u : List Char) : Bool :=
  match u.getLast? with
  | some c => isWordChar c
  | none => pw

/-- Length of the longest prefix whose characters all satisfy p: the extent
of a greedy character-class repetition. -/
def leadCount (p : Char → Bool) : List Char → Nat
  | [] => 0
  | c :: rest => if p c then leadCount p rest + 1 else 0

/-- Candidate repetition counts in greedy (descending) order, hi down to lo;
empty when lo exceeds hi. -/
def descList (hi lo : Nat) : List Nat :=
  (List.range (hi + 1 - lo)).map (fun k => hi - k)

/-- Word-ness of the character at index k (false when out of range). -/
def wordAtL (v : List Char) (k : Nat) : Bool :=
  match v[k]? with
  | some c => isWordChar c
  | none => false

/-- Digit test at index k (false when out of range). -/
def digitAtL (v : List Char) (k : Nat) : Bool :=
  match v[k]? with
  | some c => isDigit09 c
  | none => false

/-- Character equality test at index k. -/
def charIsL (v : List Char) (k : Nat) (c : Char) : Bool :=
  v[k]? == some c

/-- Match attempt for pattern 1, \b[0-9]{3}-[0-9]{2}-[0-9]{4}\b, at the start
of suffix v with preceding word-ness pw. The leading boundary compares pw
with the first character, the trailing boundary compares characters 10 and
11; all repetitions are fixed-width, so no backtracking arises. Returns the
match length 11. -/
def ssnCore (pw : Bool) (v : List Char) : Option Nat :=
  if (pw != headWord v)
      && digitAtL v 0 && digitAtL v 1 && digitAtL v 2
      && charIsL v 3 '-'
      && digitAtL v 4 && digitAtL v 5
      && charIsL v 6 '-'
      && digitAtL v 7 && digitAtL v 8 && digitAtL v 9 && digitAtL v 10
      && (wordAtL v 10 != wordAtL v 11)
  then some 11 else none

/-- Match attempt for pattern 2, \b[0-9]{16}\b, at the start of suffix v. -/
def cardCore (pw : Bool) (v : List Char) : Option Nat :=
  if (pw != headWord v)
      && (List.range 16).all (fun k => digitAtL v k)
      && (wordAtL v 15 != wordAtL v 16)
  then some 16 else none

/-- Match attempt for pattern 3, (?i)\b[A-Za-z0-9._%+-]+@[A-Za-z0-9.-]+
\.[A-Z]{2,}\b, at the start of suffix v. The local-part repetition is greedy
and must be followed by the literal @; since @ is outside the local class,
only the maximal run can match, so its length is leadCount. The domain
repetition is greedy with real backtracking (the literal dot is itself a
domain character), hence the descending candidate list; likewise the
top-level-domain repetition backtracks against the trailing boundary.
Returns the total match length. -/
def emailCore (pw : Bool) (v : List Char) : Option Nat :=
  let L := leadCount isLocalChar v
  if L = 0 then none
  else if pw == headWord v then none
  else
    match v.drop L with
    | '@' :: t =>
        let D := leadCount isDomainChar t
        (descList D 1).findSome? (fun d =>
          match t.drop d with
          | '.' :: u =>
              let A := leadCount isAsciiAlpha u
              (descList A 2).findSome? (fun a =>
                if lastWord (u.take a) != headWord (u.drop a)
                then some (L + 1 + d + 1 + a)
                else none)
          | _ => none)
    | _ => none

/-- Leftmost match search: try a match attempt at each successive position,
returning the start offset and length of the first success; the word-ness of
the character before each position is threaded through, exactly as the
engine evaluates the look-behind of \b against the haystack. -/
def findCore (core : Bool → List Char → Option Nat) :
    Bool → List Char → Option (Nat × Nat)
  | pw, [] =>
      match core pw [] with
      | some len => some (0, len)
      | none => none
  | pw, c :: rest =>
      match core pw (c :: rest) with
      | some len => some (0, len)
      | none =>
          (findCore core (isWordChar c) rest).map (fun q => (q.1 + 1, q.2))

/-- Replacement marker "[REDACTED]". -/
def redactedMarker : List Char := "[REDACTED]".data

/-- Replace_all loop: find the leftmost match, keep the text before it, emit
the marker, and continue after the match with the word-ness of the last
matched character (the engine rescans the original haystack from the end of
each match). The fuel argument dominates the number of matches; every
pattern here matches at least one character, so length + 1 suffices. -/
def replaceGo (core : Bool → List Char → Option Nat) (marker : List Char) :
    Nat → Bool → List Char → List Char
  | 0, _, s => s
  | fuel + 1, pw, s =>
      match findCore core pw s with
      | none => s
      | some (g, len) =>
          s.take g ++ marker ++
            replaceGo core marker fuel (lastWord (s.take (g + len)))
              (s.drop (g + len))

/-- Embeds Regex::replace_all for one compiled pattern: at the start of the
text there is no preceding character, so pw is false. -/
def replace_all (core : Bool → List Char → Option Nat) (marker : List Char)
    (s : List Char) : List Char :=
  replaceGo core marker (s.length + 1) false s

/-- The three compiled patterns of ExcavationSafetyProfile::new, in order. -/
def redactPatternCores : List (Bool → List Char → Option Nat) :=
  [ssnCore, cardCore, emailCore]

/-- Embeds ExcavationSafetyProfile::redact_text (lines 109-115): fold
replace_all over the three patterns in order, each pass rewriting the output
of the previous one. -/
def redact_text (text : String) : String :=
  String.mk (redactPatternCores.foldl
    (fun sanitized core => replace_all core redactedMarker sanitized)
    text.data)

end Javaspectre

namespace Javaspectre

/-! ## Claims C5, C6, C7, C9 -/

/-- Membership in a conditional singleton list. -/
theorem mem_ite_singleton {c : Prop} [Decidable c] (a x : String) :
    (x ∈ if c then [a] else []) ↔ (x = a ∧ c) := by
  split <;> simp_all

/-- Claim C9: when the profile's deep_pass_budget is 0, should_enter_deep_pass
returns false for every pair of value and cost scores, including pairs where
value_score - cost_score is at least 0.25. -/
theorem should_enter_deep_pass_zero_budget
    (p : ExcavationSafetyProfile) (v c : ℚ) (h : p.deep_pass_budget = 0) :
    p.should_enter_deep_pass v c = false := by
  simp [ExcavationSafetyProfile.should_enter_deep_pass, h]

/-- Witness for C9: the concrete zero-budget profile refuses deep pass even
though the value-cost margin 1 - 0 exceeds 0.25. -/
theorem should_enter_deep_pass_zero_budget_witness :
    zeroDeepPassProfile.deep_pass_budget = 0 ∧
      zeroDeepPassProfile.should_enter_deep_pass 1 0 = false :=
  ⟨rfl, should_enter_deep_pass_zero_budget zeroDeepPassProfile 1 0 rfl⟩

/-- Counterexample for C5 as frozen: a profile with deep_pass_budget = 0
returns false although value_score - cost_score = 1 is at least the margin
0.25, so the admission rule is not independent of the profile. -/
theorem should_enter_deep_pass_profile_dependent_cex :
    zeroDeepPassProfile.should_enter_deep_pass 1 0 = false ∧
      (0.25 : ℚ) ≤ (1 : ℚ) - (0 : ℚ) := by
  constructor
  · rfl
  · norm_num

/-- Claim C5 (amended): should_enter_deep_pass(v, c) is true iff the profile's
deep_pass_budget is nonzero and v - c is at least the fixed margin 0.25 (the
boundary value 0.25 itself admits); for profiles with a nonzero deep-pass
budget the decision is exactly the fixed-margin rule. -/
theorem should_enter_deep_pass_spec
    (p : ExcavationSafetyProfile) (v c : ℚ) :
    p.should_enter_deep_pass v c = true ↔
      (p.deep_pass_budget ≠ 0 ∧ (0.25 : ℚ) ≤ v - c) := by
  unfold ExcavationSafetyProfile.should_enter_deep_pass
  split
  · simp_all
  · simp_all

/-- Claim C6: classify_object returns exactly one of the three labels
auto-use, show-with-warning, quarantine, decided by two ordered threshold
tests: auto-use iff confidence is at least min_confidence_for_auto_use and
drift at most max_drift_for_auto_use; otherwise show-with-warning iff
confidence is at least min_confidence_for_display and drift at most
max_drift_for_citizen_ui; otherwise quarantine. -/
theorem classify_object_spec
    (p : ExcavationSafetyProfile) (confidence drift : ℚ) :
    (p.classify_object confidence drift = "auto-use" ∨
      p.classify_object confidence drift = "show-with-warning" ∨
      p.classify_object confidence drift = "quarantine") ∧
    (p.classify_object confidence drift = "auto-use" ↔
      (p.min_confidence_for_auto_use ≤ confidence ∧
        drift ≤ p.max_drift_for_auto_use)) ∧
    (p.classify_object confidence drift = "show-with-warning" ↔
      (¬ (p.min_confidence_for_auto_use ≤ confidence ∧
            drift ≤ p.max_drift_for_auto_use) ∧
        (p.min_confidence_for_display ≤ confidence ∧
          drift ≤ p.max_drift_for_citizen_ui))) ∧
    (p.classify_object confidence drift = "quarantine" ↔
      (¬ (p.min_confidence_for_auto_use ≤ confidence ∧
            drift ≤ p.max_drift_for_auto_use) ∧
        ¬ (p.min_confidence_for_display ≤ confidence ∧
            drift ≤ p.max_drift_for_citizen_ui))) := by
  unfold ExcavationSafetyProfile.classify_object
  split
  · simp_all
  · split
    · simp_all
    · simp_all

/-- Claim C7: enforce_budgets checks the four observed quantities against
their budgets independently and returns the complete set of violated budget
names; the success value is returned iff all four quantities are within their
configured limits, and the error value carries exactly the violation list. -/
theorem enforce_budgets_spec
    (p : ExcavationSafetyProfile) (nodes spans deep_candidates : Nat)
    (run_duration : ℚ) :
    (∀ x : String,
      x ∈ p.budget_violations nodes spans deep_candidates run_duration ↔
        ((x = "nodeBudget" ∧ nodes > p.node_budget) ∨
         (x = "traceSpanBudget" ∧ spans > p.trace_span_budget) ∨
         (x = "deepPassBudget" ∧ deep_candidates > p.deep_pass_budget) ∨
         (x = "maxRunSeconds" ∧ run_duration > p.max_run_duration))) ∧
    (p.enforce_budgets nodes spans deep_candidates run_duration = .ok () ↔
      (nodes ≤ p.node_budget ∧ spans ≤ p.trace_span_budget ∧
        deep_candidates ≤ p.deep_pass_budget ∧
        run_duration ≤ p.max_run_duration)) ∧
    (p.enforce_budgets nodes spans deep_candidates run_duration =
      if p.budget_violations nodes spans deep_candidates run_duration = []
      then .ok ()
      else .error (p.budget_violations nodes spans deep_candidates run_duration)) := by
  refine ⟨?_, ?_, ?_⟩
  · intro x
    unfold ExcavationSafetyProfile.budget_violations
    simp only [List.mem_append, mem_ite_singleton, List.not_mem_nil, or_false]
    tauto
  · unfold ExcavationSafetyProfile.enforce_budgets
      ExcavationSafetyProfile.budget_violations
    split <;> split <;> split <;> split <;>
      simp_all [not_lt]
  · unfold ExcavationSafetyProfile.enforce_budgets
    simp [List.isEmpty_iff]


/-! ## Claims C1, C2, C10 -/
/-- Counterexample for C1 as frozen: with no snapshot recorded for the object
(latest_snapshot yields none, so the only version the claim admits is 1),
insert_snapshot nevertheless accepts version 5 and succeeds; the kernel never
raises a version conflict. Because the method reads no state, a repeated
insertion of version 1 is the same pure call and succeeds both times. -/
theorem insert_snapshot_accepts_out_of_sequence_version :
    sampleKernel.latest_snapshot ⟨7⟩ = .ok none ∧
      (sampleKernel.insert_snapshot 0 0 ⟨7⟩ 5 ⟨"x"⟩ none sampleStability
        sampleDrift).isOk = true ∧
      (sampleKernel.insert_snapshot 0 0 ⟨7⟩ 1 ⟨"x"⟩ none sampleStability
        sampleDrift).isOk = true :=
  ⟨rfl, rfl, rfl⟩

/-- Claim C1 (amended): insert_snapshot performs no version validation at
all; for every supplied version it succeeds (it never fails with a
version-conflict error) and returns a record carrying exactly the supplied
version, with auto_use_allowed derived from the drift score and the
profile's auto-use ceiling. Contiguity of per-object versions is therefore
not enforced by the ledger. -/
theorem insert_snapshot_never_rejects (k : SqliteVirtualObjectKernel)
    (fresh_id now : Nat) (obj_id : VirtualObjectId) (version : Nat)
    (json : JsonPayload) (topo : Option GraphTopologyStats)
    (stability : StabilityMetrics) (drift : DriftMetrics) :
    ∃ rec0 : AtlasSnapshotRecord,
      k.insert_snapshot fresh_id now obj_id version json topo stability drift =
        .ok rec0 ∧
      rec0.version = version ∧
      rec0.auto_use_allowed =
        decide (drift.drift_score ≤ k.graph_safety_profile.max_drift_for_auto_use) :=
  ⟨_, rfl, rfl, rfl⟩

/-- Claim C2: the governance gate passes iff the environment is
safety-qualified, both host resources are strictly positive, and the object
either needs no governance or (for governed and multisig-governed objects)
has drift at most the fixed 0.3 ceiling. The gate takes no profile argument,
so the ceiling is independent of the configurable
GraphSafetyProfile.max_drift_for_auto_use; the iff captures every clause of
the claim (false when unqualified regardless of other inputs, false when a
resource is nonpositive, true for ungoverned objects regardless of drift). -/
theorem atlas_auto_use_gate_spec (env : CargoEnvDescriptor) (host : HostBudget)
    (obj : VirtualObjectDescriptor) :
    atlas_auto_use_gate env host obj = true ↔
      (env.is_bci_safety_qualified = true ∧
        0 < host.remaining_energy_joules ∧
        0 < host.remaining_protein_grams ∧
        (obj.governance = GovernanceRequirement.None ∨
          obj.drift.drift_score ≤ (0.3 : ℚ))) := by
  unfold atlas_auto_use_gate
  rcases env with ⟨q⟩
  cases q <;> cases hg : obj.governance <;>
    simp_all [CargoEnvDescriptor.is_bci_safety_qualified, not_le] <;>
    split_ifs <;> simp_all [not_le]

/-- Claim C10: apply_excavation_update inserts and returns a snapshot whose
version is descriptor.stability.revision_count + 1. The statement quantifies
over the full kernel (hence over any ledger contents the kernel could
reflect, the Sqlite kernel reading none) and over the separately passed new
StabilityMetrics, so the version is derived solely from the revision count
inside the descriptor. -/
theorem apply_excavation_update_version (kernel : SqliteVirtualObjectKernel)
    (fresh_snapshot_id fresh_metrics_id now : Nat)
    (descriptor : VirtualObjectDescriptor) (json : JsonPayload)
    (topo : Option GraphTopologyStats) (stability : StabilityMetrics)
    (drift : DriftMetrics) :
    (apply_excavation_update kernel fresh_snapshot_id fresh_metrics_id now
        descriptor json topo stability drift).map
      (fun r => r.snapshot.version) =
      .ok (descriptor.stability.revision_count + 1) :=
  rfl


/-! ## Claims C4, C8 -/

/-- Counterexample for C4 as frozen: two policy denials are silent. With
telemetry allowed by policy but the sdk absent from the (empty) allow-list,
guard_telemetry returns false and emits no audit event; and in Public
citizen mode with no safe policy tag, create_ar_object rejects with an error
and emits no audit event. -/
theorem policy_denials_silent_cex :
    guard_telemetry telemetryOnPolicy 0 "datadog" "profile" = (false, []) ∧
      create_ar_object publicCitizenProfile 0 "obj-1" "bostrom1owner"
        ARVirtualType.Overlay sampleGeometry ["ads:targeted"] =
        (.error "Citizen mode PUBLIC requires noninvasive/local-only policy tags",
          []) :=
  ⟨rfl, rfl⟩

/-- Claim C4 (amended): guard_cross_origin pairs every Blocked result with
exactly one cross-origin-block audit event; guard_telemetry pairs the
policy-disallowed denial with exactly one telemetry-block event, but its
allow-list-miss denial emits no event; public-mode creation rejection emits
no event, while successful creation emits one ar-object-created event. -/
theorem policy_denial_audit_spec (policy : RuntimePolicy)
    (citizen_profile : CitizenXRProfile) (now : Nat)
    (operation source target sdk_name action id owner : String)
    (vtype : ARVirtualType) (geometry : Geometry) (policy_tags : List String) :
    ((guard_cross_origin policy now operation source target).1.isOk = false ↔
      policy.allow_cross_origin_introspection = false) ∧
    ((guard_cross_origin policy now operation source target).2.map
        AuditEvent.kind =
      if policy.allow_cross_origin_introspection then []
      else ["cross-origin-block"]) ∧
    ((guard_telemetry policy now sdk_name action) =
      if policy.allow_telemetry then
        (policy.allowed_sdks.any (fun s => s == sdk_name), [])
      else
        (false, [⟨"telemetry-block", now, [("sdk", sdk_name), ("action", action)]⟩])) ∧
    ((create_ar_object citizen_profile now id owner vtype geometry
          policy_tags).1.isOk = false →
      (create_ar_object citizen_profile now id owner vtype geometry
          policy_tags).2 = []) ∧
    ((create_ar_object citizen_profile now id owner vtype geometry
          policy_tags).1.isOk = true →
      (create_ar_object citizen_profile now id owner vtype geometry
          policy_tags).2.map AuditEvent.kind = ["ar-object-created"]) := by
  refine ⟨?_, ?_, ?_, ?_, ?_⟩
  · unfold guard_cross_origin
    cases policy.allow_cross_origin_introspection <;> simp [Except.isOk, Except.toBool]
  · unfold guard_cross_origin
    cases policy.allow_cross_origin_introspection <;> simp
  · unfold guard_telemetry
    cases policy.allow_telemetry <;> simp
  · unfold create_ar_object
    cases hm : citizen_profile.safety_mode <;>
      cases hb : policy_tags.any (fun t =>
        t == "safety:noninvasive" || t == "privacy:local-only") <;>
      simp_all [Except.isOk, Except.toBool]
  · unfold create_ar_object
    cases hm : citizen_profile.safety_mode <;>
      cases hb : policy_tags.any (fun t =>
        t == "safety:noninvasive" || t == "privacy:local-only") <;>
      simp_all [Except.isOk, Except.toBool]

/-- Witness for the amended C4: at concrete inputs, the cross-origin denial
carries its audit event, the telemetry policy-denial carries its event, and
a successful public-mode creation with a safe tag emits ar-object-created. -/
theorem policy_denial_audit_spec_witness :
    ((guard_cross_origin RuntimePolicy.default 3 "read-top-window" "a.org"
        "b.org").1.isOk = false →
      (guard_cross_origin RuntimePolicy.default 3 "read-top-window" "a.org"
        "b.org").2.map AuditEvent.kind = ["cross-origin-block"]) ∧
    ((create_ar_object publicCitizenProfile 3 "obj-2" "bostrom1owner"
        ARVirtualType.SafetyBeacon sampleGeometry
        ["safety:noninvasive"]).1.isOk = true →
      (create_ar_object publicCitizenProfile 3 "obj-2" "bostrom1owner"
        ARVirtualType.SafetyBeacon sampleGeometry
        ["safety:noninvasive"]).2.map AuditEvent.kind = ["ar-object-created"]) := by
  have h := policy_denial_audit_spec RuntimePolicy.default publicCitizenProfile 3
    "read-top-window" "a.org" "b.org" "datadog" "profile" "obj-2" "bostrom1owner"
    ARVirtualType.SafetyBeacon sampleGeometry ["safety:noninvasive"]
  exact ⟨fun _ => h.2.1, fun hb => h.2.2.2.2 hb⟩

/-- Claim C8: policy_for returns the registered policy when the domain is
registered, and otherwise a deny-by-default policy scoped to the requested
domain: telemetry disallowed, cross-origin introspection disallowed, empty
SDK allow-list (and Private citizen mode, from RuntimePolicy::default). -/
theorem policy_for_spec (reg : RuntimePolicyRegistry) (domain : String) :
    (∃ p, reg.policies.lookup domain = some p ∧ reg.policy_for domain = p) ∨
    (reg.policies.lookup domain = none ∧
      (reg.policy_for domain).domain = domain ∧
      (reg.policy_for domain).allow_telemetry = false ∧
      (reg.policy_for domain).allow_cross_origin_introspection = false ∧
      (reg.policy_for domain).allowed_sdks = [] ∧
      (reg.policy_for domain).citizen_mode = CitizenSafetyMode.Private) := by
  unfold RuntimePolicyRegistry.policy_for
  cases h : reg.policies.lookup domain with
  | some p => exact Or.inl ⟨p, rfl, rfl⟩
  | none => exact Or.inr ⟨rfl, rfl, rfl, rfl, rfl, rfl⟩

/-! ## Claim C3: redaction idempotence, 1 - list-level toolkit -/

/-- Appending after a nonempty list keeps the head word-ness. -/
theorem headWord_append (u v : List Char) (hu : u ≠ []) :
    headWord (u ++ v) = headWord u := by
  cases u with
  | nil => exact absurd rfl hu
  | cons c w => rfl

/-- The word-ness after consuming nothing is the incoming word-ness. -/
theorem pwAfter_nil (pw : Bool) : pwAfter pw [] = pw := rfl

/-- Consuming a concatenation threads word-ness through both parts. -/
theorem pwAfter_append (pw : Bool) (u v : List Char) :
    pwAfter pw (u ++ v) = pwAfter (pwAfter pw u) v := by
  cases h : v.getLast? with
  | some c =>
      have hv : v ≠ [] := by
        intro hnil; rw [hnil] at h; simp at h
      unfold pwAfter
      rw [List.getLast?_append_of_ne_nil _ hv, h]
  | none =>
      have hv : v = [] := by
        cases v with
        | nil => rfl
        | cons a w => simp [List.getLast?] at h
      subst hv
      simp [pwAfter]

/-- Consuming a nonempty list lands on its last character's word-ness. -/
theorem pwAfter_ne_nil (pw : Bool) (u : List Char) (hu : u ≠ []) :
    pwAfter pw u = lastWord u := by
  unfold pwAfter lastWord
  cases h : u.getLast? with
  | some c => rfl
  | none =>
      cases u with
      | nil => exact absurd rfl hu
      | cons a w => simp [List.getLast?] at h

/-- The last character of a concatenation with nonempty second part. -/
theorem lastWord_append (u v : List Char) (hv : v ≠ []) :
    lastWord (u ++ v) = lastWord v := by
  unfold lastWord
  rw [List.getLast?_append_of_ne_nil _ hv]

/-- A greedy run never exceeds the text length. -/
theorem leadCount_le_length (p : Char → Bool) (v : List Char) :
    leadCount p v ≤ v.length := by
  induction v with
  | nil => simp [leadCount]
  | cons c w ih =>
      by_cases h : p c = true <;> simp [leadCount, h] <;> omega

/-- A run over a prefix whose characters all satisfy p continues into the
remainder. -/
theorem leadCount_append_all (p : Char → Bool) (u v : List Char)
    (h : ∀ c ∈ u, p c = true) :
    leadCount p (u ++ v) = u.length + leadCount p v := by
  induction u with
  | nil => simp
  | cons c w ih =>
      have hc : p c = true := h c (by simp)
      simp [leadCount, hc, ih (fun d hd => h d (by simp [hd]))]
      omega

/-- A run that stops strictly inside a prefix is unaffected by the suffix. -/
theorem leadCount_append_lt (p : Char → Bool) (u v : List Char)
    (h : leadCount p u < u.length) :
    leadCount p (u ++ v) = leadCount p u := by
  induction u with
  | nil => simp [leadCount] at h
  | cons c w ih =>
      by_cases hc : p c = true
      · simp [leadCount, hc] at h ⊢
        exact ih (by omega)
      · simp [leadCount, hc]

/-- Every character inside the greedy run satisfies p. -/
theorem leadCount_take_all (p : Char → Bool) (v : List Char) :
    ∀ c ∈ v.take (leadCount p v), p c = true := by
  induction v with
  | nil => simp
  | cons c w ih =>
      by_cases hc : p c = true
      · simp [leadCount, hc]
        intro d hd
        exact ih d hd
      · simp [leadCount, hc]

/-- The run stops at the first failing character. -/
theorem leadCount_drop_head (p : Char → Bool) (v : List Char) (c : Char)
    (w : List Char) (h : v.drop (leadCount p v) = c :: w) : p c = false := by
  induction v with
  | nil => simp at h
  | cons a u ih =>
      by_cases ha : p a = true
      · simp [leadCount, ha] at h
        exact ih h
      · simp [leadCount, ha] at h
        rw [← h.1]
        exact Bool.not_eq_true _ ▸ (by simpa using ha)

/-- A prefix of n characters all satisfying p forces a run of at least n. -/
theorem le_leadCount_of_all (p : Char → Bool) (u v : List Char)
    (h : ∀ c ∈ u, p c = true) :
    u.length ≤ leadCount p (u ++ v) := by
  rw [leadCount_append_all p u v h]
  omega

/-- A run in a concatenation is at least the run of the first part. -/
theorem leadCount_append_ge (p : Char → Bool) (u v : List Char) :
    leadCount p u ≤ leadCount p (u ++ v) := by
  induction u with
  | nil => simp [leadCount]
  | cons c w ih =>
      by_cases hc : p c = true <;> simp [leadCount, hc]
      omega

end Javaspectre

namespace Javaspectre

/-! ## Claim C3, 2 - leftmost-search lemmas -/

/-- Defining equation of the search on the empty text. -/
theorem findCore_nil_eq (core : Bool → List Char → Option Nat) (pw : Bool) :
    findCore core pw [] =
      (match core pw [] with
        | some len => some (0, len)
        | none => none) := rfl

/-- Defining equation of the search on a nonempty text. -/
theorem findCore_cons_eq (core : Bool → List Char → Option Nat) (pw : Bool)
    (c : Char) (rest : List Char) :
    findCore core pw (c :: rest) =
      (match core pw (c :: rest) with
        | some len => some (0, len)
        | none =>
            (findCore core (isWordChar c) rest).map
              (fun q => (q.1 + 1, q.2))) := rfl

/-- Unfolding the search on the empty text. -/
theorem findCore_nil_none (core : Bool → List Char → Option Nat) (pw : Bool) :
    findCore core pw [] = none ↔ core pw [] = none := by
  rw [findCore_nil_eq]
  cases h : core pw [] <;> simp

/-- Unfolding the search on a nonempty text: it fails iff the attempt at the
head fails and the search over the tail fails. -/
theorem findCore_cons_none (core : Bool → List Char → Option Nat) (pw : Bool)
    (c : Char) (rest : List Char) :
    findCore core pw (c :: rest) = none ↔
      (core pw (c :: rest) = none ∧
        findCore core (isWordChar c) rest = none) := by
  rw [findCore_cons_eq]
  cases h : core pw (c :: rest) <;> simp

/-- Threading word-ness through a cons. -/
theorem pwAfter_cons (pw : Bool) (c : Char) (w : List Char) :
    pwAfter pw (c :: w) = pwAfter (isWordChar c) w := by
  have h : (c :: w) = [c] ++ w := rfl
  rw [h, pwAfter_append]; rfl

/-- If every match attempt fails at every split, the search fails. -/
theorem findCore_build (core : Bool → List Char → Option Nat) (pw : Bool)
    (s : List Char)
    (h : ∀ u1 u2, s = u1 ++ u2 → core (pwAfter pw u1) u2 = none) :
    findCore core pw s = none := by
  induction s generalizing pw with
  | nil =>
      rw [findCore_nil_none]
      simpa [pwAfter] using h [] [] rfl
  | cons c rest ih =>
      rw [findCore_cons_none]
      constructor
      · simpa [pwAfter] using h [] (c :: rest) rfl
      · apply ih
        intro u1 u2 hsplit
        have := h (c :: u1) u2 (by simp [hsplit])
        rwa [pwAfter_cons] at this

/-- If the search fails, every match attempt at every split fails. -/
theorem findCore_point (core : Bool → List Char → Option Nat) (pw : Bool)
    (u1 u2 : List Char)
    (h : findCore core pw (u1 ++ u2) = none) :
    core (pwAfter pw u1) u2 = none := by
  induction u1 generalizing pw with
  | nil =>
      rw [pwAfter_nil]
      cases u2 with
      | nil => exact (findCore_nil_none core pw).mp h
      | cons c rest => exact ((findCore_cons_none core pw c rest).mp h).1
  | cons c w ih =>
      rw [pwAfter_cons]
      exact ih (isWordChar c)
        ((findCore_cons_none core pw c (w ++ u2)).mp h).2

/-- A failing search keeps failing on any suffix, with the threaded
word-ness. -/
theorem findCore_drop (core : Bool → List Char → Option Nat) (pw : Bool)
    (u v : List Char) (h : findCore core pw (u ++ v) = none) :
    findCore core (pwAfter pw u) v = none := by
  induction u generalizing pw with
  | nil => rw [pwAfter_nil]; exact h
  | cons c w ih =>
      rw [pwAfter_cons]
      exact ih (isWordChar c)
        ((findCore_cons_none core pw c (w ++ v)).mp h).2

/-- A failing search stays failing when the initial word-ness changes,
provided the attempt at the very first position also fails for the new
word-ness. -/
theorem findCore_pw_switch (core : Bool → List Char → Option Nat)
    (pwA pwB : Bool) (v : List Char)
    (hA : findCore core pwA v = none) (hB : core pwB v = none) :
    findCore core pwB v = none := by
  cases v with
  | nil => exact (findCore_nil_none core pwB).mpr hB
  | cons c rest =>
      rw [findCore_cons_none]
      exact ⟨hB, ((findCore_cons_none core pwA c rest).mp hA).2⟩

/-- Unfolding a successful search on a nonempty text. -/
theorem findCore_cons_some (core : Bool → List Char → Option Nat) (pw : Bool)
    (c : Char) (rest : List Char) (g len : Nat)
    (h : findCore core pw (c :: rest) = some (g, len)) :
    (g = 0 ∧ core pw (c :: rest) = some len) ∨
      (∃ g0, g = g0 + 1 ∧ core pw (c :: rest) = none ∧
        findCore core (isWordChar c) rest = some (g0, len)) := by
  rw [findCore_cons_eq] at h
  cases hc : core pw (c :: rest) with
  | some len0 =>
      rw [hc] at h
      simp at h
      exact Or.inl ⟨h.1.symm, by rw [h.2]⟩
  | none =>
      rw [hc] at h
      cases hr : findCore core (isWordChar c) rest with
      | none => rw [hr] at h; simp at h
      | some q =>
          obtain ⟨q1, q2⟩ := q
          rw [hr] at h
          simp at h
          refine Or.inr ⟨q1, by omega, rfl, ?_⟩
          rw [h.2]


/-- Decomposition of a successful leftmost search: a successful attempt at
the reported offset, failing attempts strictly before it. -/
theorem findCore_some (core : Bool → List Char → Option Nat) (pw : Bool)
    (s : List Char) (g len : Nat)
    (h : findCore core pw s = some (g, len)) :
    core (pwAfter pw (s.take g)) (s.drop g) = some len ∧
      ∀ g' < g, core (pwAfter pw (s.take g')) (s.drop g') = none := by
  induction s generalizing pw g with
  | nil =>
      unfold findCore at h
      cases hc : core pw [] with
      | some len0 =>
          rw [hc] at h
          simp at h
          rcases h with ⟨h1, h2⟩
          subst h1
          refine ⟨by simpa [pwAfter] using hc.trans (by rw [h2]), by omega⟩
      | none => rw [hc] at h; simp at h
  | cons c rest ih =>
      rcases findCore_cons_some core pw c rest g len h with
        ⟨hg, hc⟩ | ⟨g0, hg, hc, hr⟩
      · subst hg
        refine ⟨by simpa [pwAfter] using hc, by omega⟩
      · subst hg
        have hrec := ih (isWordChar c) g0 hr
        constructor
        · have hpw : pwAfter pw ((c :: rest).take (g0 + 1)) =
              pwAfter (isWordChar c) (rest.take g0) := by
            simpa using pwAfter_cons pw c (rest.take g0)
          rw [show ((c :: rest).take (g0 + 1)) = c :: rest.take g0 by simp,
            pwAfter_cons]
          simpa using hrec.1
        · intro g' hg'
          cases g' with
          | zero => simpa [pwAfter] using hc
          | succ g1 =>
              rw [show ((c :: rest).take (g1 + 1)) = c :: rest.take g1 by simp,
                pwAfter_cons]
              simpa using hrec.2 g1 (by omega)

/-- Membership in the descending candidate list is the closed interval. -/
theorem descList_mem (hi lo d : Nat) :
    d ∈ descList hi lo ↔ lo ≤ d ∧ d ≤ hi := by
  unfold descList
  simp only [List.mem_map, List.mem_range]
  constructor
  · rintro ⟨k, hk, rfl⟩
    omega
  · rintro ⟨h1, h2⟩
    exact ⟨hi - d, by omega, by omega⟩

/-- A first-some scan succeeds when some listed candidate succeeds. -/
theorem findSome?_isSome_of_mem {α β : Type} (l : List α) (f : α → Option β)
    (x : α) (y : β) (hx : x ∈ l) (hf : f x = some y) :
    ∃ z, l.findSome? f = some z := by
  induction l with
  | nil => simp at hx
  | cons a t ih =>
      rcases List.mem_cons.mp hx with rfl | hxt
      · exact ⟨y, by simp [List.findSome?_cons, hf]⟩
      · cases ha : f a with
        | some z => exact ⟨z, by simp [List.findSome?_cons, ha]⟩
        | none =>
            rcases ih hxt with ⟨z, hz⟩
            exact ⟨z, by simp [List.findSome?_cons, ha, hz]⟩

/-- A successful first-some scan names a successful candidate. -/
theorem findSome?_elim {α β : Type} (l : List α) (f : α → Option β) (z : β)
    (h : l.findSome? f = some z) : ∃ x ∈ l, f x = some z := by
  induction l with
  | nil => simp [List.findSome?] at h
  | cons a t ih =>
      cases ha : f a with
      | some w =>
          simp [List.findSome?_cons, ha] at h
          exact ⟨a, by simp, by rw [ha, h]⟩
      | none =>
          simp [List.findSome?_cons, ha] at h
          rcases ih h with ⟨x, hx, hfx⟩
          exact ⟨x, by simp [hx], hfx⟩

end Javaspectre

namespace Javaspectre

/-! ## Claim C3, 3 - matcher facts for the two fixed-width patterns -/

/-- Digits are word characters. -/
theorem word_of_digit (c : Char) (h : isDigit09 c = true) :
    isWordChar c = true := by
  simp [isWordChar, h]

/-- Letters are word characters. -/
theorem word_of_alpha (c : Char) (h : isAsciiAlpha c = true) :
    isWordChar c = true := by
  simp [isWordChar, h]

/-- Word characters belong to the local class. -/
theorem local_of_word (c : Char) (h : isWordChar c = true) :
    isLocalChar c = true := by
  simp [isLocalChar, h]

/-- Head word-ness of a suffix as an indexed probe. -/
theorem headWord_drop (v : List Char) (k : Nat) :
    headWord (v.drop k) = wordAtL v k := by
  unfold headWord wordAtL
  cases h : v.drop k with
  | nil =>
      have : v[k]? = none := by
        rw [← List.head?_drop, h]
        rfl
      rw [this]
  | cons c w =>
      have : v[k]? = some c := by
        rw [← List.head?_drop, h]
        rfl
      rw [this]

/-- An in-range probe of the left part of a concatenation. -/
theorem getElem?_append_left_of_lt {v w : List Char} {k : Nat}
    (h : k < v.length) : (v ++ w)[k]? = v[k]? := by
  exact List.getElem?_append_left h

/-- The probe at the junction of a concatenation reads the second part. -/
theorem getElem?_append_junction (v : List Char) (c : Char) (w : List Char) :
    (v ++ c :: w)[v.length]? = some c := by
  rw [List.getElem?_append_right (Nat.le_refl _)]
  simp

/-- A successful digit probe is in range. -/
theorem digitAtL_lt (v : List Char) (k : Nat) (h : digitAtL v k = true) :
    k < v.length := by
  unfold digitAtL at h
  cases hk : v[k]? with
  | none => rw [hk] at h; simp at h
  | some c => exact (List.getElem?_eq_some.mp hk).1

/-- The last character of a list of known length as an indexed probe. -/
theorem lastWord_eq_wordAtL (v : List Char) (k : Nat)
    (h : v.length = k + 1) : lastWord v = wordAtL v k := by
  unfold lastWord wordAtL
  rw [List.getLast?_eq_getElem?, h]
  simp

/-- Pattern 1 never matches the empty text. -/
theorem ssn_nil (pw : Bool) : ssnCore pw [] = none := by
  simp [ssnCore, digitAtL]

/-- Every pattern 1 match has length 11 and fits in the text. -/
theorem ssn_bounds (pw : Bool) (v : List Char) (len : Nat)
    (h : ssnCore pw v = some len) : 1 ≤ len ∧ len ≤ v.length ∧ len = 11 := by
  unfold ssnCore at h
  split at h
  · rename_i hcond
    simp only [Bool.and_eq_true] at hcond
    have h10 : digitAtL v 10 = true := hcond.1.2
    have := digitAtL_lt v 10 h10
    simp at h
    omega
  · simp at h

/-- A pattern 1 match begins at a word boundary. -/
theorem ssn_startB (pw : Bool) (v : List Char) (len : Nat)
    (h : ssnCore pw v = some len) : pw ≠ headWord v := by
  unfold ssnCore at h
  split at h
  · rename_i hcond
    simp only [Bool.and_eq_true] at hcond
    exact bne_iff_ne.mp hcond.1.1.1.1.1.1.1.1.1.1.1.1
  · simp at h

/-- The character after a pattern 1 match is not a word character. -/
theorem ssn_endW (pw : Bool) (v : List Char) (len : Nat)
    (h : ssnCore pw v = some len) : headWord (v.drop len) = false := by
  unfold ssnCore at h
  split at h
  · rename_i hcond
    simp only [Bool.and_eq_true] at hcond
    have h10 : digitAtL v 10 = true := hcond.1.2
    have hb : (wordAtL v 10 != wordAtL v 11) = true := hcond.2
    have hw10 : wordAtL v 10 = true := by
      unfold digitAtL at h10
      unfold wordAtL
      cases hk : v[10]? with
      | none => rw [hk] at h10; simp at h10
      | some c =>
          rw [hk] at h10
          simp at h10 ⊢
          exact word_of_digit c h10
    rw [hw10] at hb
    have : wordAtL v 11 = false := by
      cases hk : wordAtL v 11
      · rfl
      · rw [hk] at hb; simp at hb
    have hlen : len = 11 := by
      simp at h; omega
    rw [hlen, headWord_drop]
    exact this
  · simp at h

/-- A pattern 1 match starts with a digit. -/
theorem ssn_first_digit (pw : Bool) (c : Char) (w : List Char) (len : Nat)
    (h : ssnCore pw (c :: w) = some len) : isDigit09 c = true := by
  unfold ssnCore at h
  split at h
  · rename_i hcond
    simp only [Bool.and_eq_true] at hcond
    have h0 : digitAtL (c :: w) 0 = true := hcond.1.1.1.1.1.1.1.1.1.1.1.2
    simpa [digitAtL] using h0
  · simp at h

/-- Pattern 1 cannot match right after a non-word context when the text also
starts with a non-word character: the boundary fails. -/
theorem ssn_headnw (v : List Char) (h : headWord v = false) :
    ssnCore false v = none := by
  unfold ssnCore
  rw [h]
  simp

/-- Pattern 2 never matches the empty text. -/
theorem card_nil (pw : Bool) : cardCore pw [] = none := by
  cases pw <;> decide

/-- Extracting the sixteen digit probes of a pattern 2 match. -/
theorem card_digits (pw : Bool) (v : List Char) (len : Nat)
    (h : cardCore pw v = some len) :
    ∀ k < 16, digitAtL v k = true := by
  unfold cardCore at h
  split at h
  · rename_i hcond
    simp only [Bool.and_eq_true] at hcond
    have hall := hcond.1.2
    rw [List.all_eq_true] at hall
    intro k hk
    exact hall k (List.mem_range.mpr hk)
  · simp at h

/-- Every pattern 2 match has length 16 and fits in the text. -/
theorem card_bounds (pw : Bool) (v : List Char) (len : Nat)
    (h : cardCore pw v = some len) : 1 ≤ len ∧ len ≤ v.length ∧ len = 16 := by
  have h15 := card_digits pw v len h 15 (by omega)
  have := digitAtL_lt v 15 h15
  unfold cardCore at h
  split at h
  · simp at h
    omega
  · simp at h

/-- A pattern 2 match begins at a word boundary. -/
theorem card_startB (pw : Bool) (v : List Char) (len : Nat)
    (h : cardCore pw v = some len) : pw ≠ headWord v := by
  unfold cardCore at h
  split at h
  · rename_i hcond
    simp only [Bool.and_eq_true] at hcond
    exact bne_iff_ne.mp hcond.1.1
  · simp at h

/-- The character after a pattern 2 match is not a word character. -/
theorem card_endW (pw : Bool) (v : List Char) (len : Nat)
    (h : cardCore pw v = some len) : headWord (v.drop len) = false := by
  have h15 := card_digits pw v len h 15 (by omega)
  unfold cardCore at h
  split at h
  · rename_i hcond
    simp only [Bool.and_eq_true] at hcond
    have hb : (wordAtL v 15 != wordAtL v 16) = true := hcond.2
    have hw15 : wordAtL v 15 = true := by
      unfold digitAtL at h15
      unfold wordAtL
      cases hk : v[15]? with
      | none => rw [hk] at h15; simp at h15
      | some c =>
          rw [hk] at h15
          simp at h15 ⊢
          exact word_of_digit c h15
    rw [hw15] at hb
    have hfalse : wordAtL v 16 = false := by
      cases hk : wordAtL v 16
      · rfl
      · rw [hk] at hb; simp at hb
    have hlen : len = 16 := by
      simp at h; omega
    rw [hlen, headWord_drop]
    exact hfalse
  · simp at h

/-- A pattern 2 match starts with a digit. -/
theorem card_first_digit (pw : Bool) (c : Char) (w : List Char) (len : Nat)
    (h : cardCore pw (c :: w) = some len) : isDigit09 c = true := by
  have h0 := card_digits pw (c :: w) len h 0 (by omega)
  simpa [digitAtL] using h0

/-- Pattern 2 boundary failure on a doubly non-word junction. -/
theorem card_headnw (v : List Char) (h : headWord v = false) :
    cardCore false v = none := by
  unfold cardCore
  rw [h]
  simp

end Javaspectre

namespace Javaspectre

/-! ## Claim C3, 4 - matcher facts for the email pattern -/

/-- A nonempty list whose characters are all word characters ends in a word
character. -/
theorem lastWord_all (l : List Char) (hne : l ≠ [])
    (h : ∀ c ∈ l, isWordChar c = true) : lastWord l = true := by
  unfold lastWord
  cases hg : l.getLast? with
  | none =>
      cases l with
      | nil => exact absurd rfl hne
      | cons a w => simp [List.getLast?] at hg
  | some c => exact h c (List.mem_of_mem_getLast? hg)

/-- Structure of a successful email match: the maximal local run, the literal
at sign, a domain cut with its literal dot, and a top-level-domain length
with its trailing boundary. -/
theorem email_elim (pw : Bool) (v : List Char) (len : Nat)
    (h : emailCore pw v = some len) :
    ∃ t u d a,
      1 ≤ leadCount isLocalChar v ∧
      pw ≠ headWord v ∧
      v.drop (leadCount isLocalChar v) = '@' :: t ∧
      1 ≤ d ∧ d ≤ leadCount isDomainChar t ∧
      t.drop d = '.' :: u ∧
      2 ≤ a ∧ a ≤ leadCount isAsciiAlpha u ∧
      (lastWord (u.take a) != headWord (u.drop a)) = true ∧
      len = leadCount isLocalChar v + 1 + d + 1 + a := by
  unfold emailCore at h
  by_cases hL : leadCount isLocalChar v = 0
  · simp [hL] at h
  · rw [if_neg hL] at h
    by_cases hpw : (pw == headWord v) = true
    · rw [if_pos hpw] at h; simp at h
    · rw [if_neg hpw] at h
      split at h
      · rename_i t heq
        rcases findSome?_elim _ _ _ h with ⟨d, hdmem, hfd⟩
        rcases (descList_mem _ _ _).mp hdmem with ⟨hd1, hd2⟩
        split at hfd
        · rename_i u heq2
          rcases findSome?_elim _ _ _ hfd with ⟨a, hamem, hfa⟩
          rcases (descList_mem _ _ _).mp hamem with ⟨ha1, ha2⟩
          split at hfa
          · rename_i hb
            simp at hfa
            exact ⟨t, u, d, a, by omega, bne_iff_ne.mp (by simpa using hpw),
              heq, hd1, hd2, heq2, ha1, ha2, hb, by omega⟩
          · simp at hfa
        · simp at hfd
      · simp at h

/-- Assembling a successful email match from its components. -/
theorem email_build (pw : Bool) (v t u : List Char) (d a : Nat)
    (hL : 1 ≤ leadCount isLocalChar v)
    (hpw : pw ≠ headWord v)
    (hdrop : v.drop (leadCount isLocalChar v) = '@' :: t)
    (hd1 : 1 ≤ d) (hd2 : d ≤ leadCount isDomainChar t)
    (hdot : t.drop d = '.' :: u)
    (ha1 : 2 ≤ a) (ha2 : a ≤ leadCount isAsciiAlpha u)
    (hb : (lastWord (u.take a) != headWord (u.drop a)) = true) :
    ∃ len, emailCore pw v = some len := by
  unfold emailCore
  rw [if_neg (by omega), if_neg (by simpa using bne_iff_ne.mpr hpw), hdrop]
  have hinner : (if lastWord (u.take a) != headWord (u.drop a)
      then some (leadCount isLocalChar v + 1 + d + 1 + a)
      else none) = some (leadCount isLocalChar v + 1 + d + 1 + a) :=
    if_pos hb
  rcases findSome?_isSome_of_mem (descList (leadCount isAsciiAlpha u) 2)
    (fun a0 => if lastWord (u.take a0) != headWord (u.drop a0)
      then some (leadCount isLocalChar v + 1 + d + 1 + a0)
      else none)
    a (leadCount isLocalChar v + 1 + d + 1 + a)
    ((descList_mem _ _ _).mpr ⟨ha1, ha2⟩) hinner with ⟨z, hz⟩
  have houter : (fun d0 => match t.drop d0 with
      | '.' :: u0 => (descList (leadCount isAsciiAlpha u0) 2).findSome?
          (fun a0 => if lastWord (u0.take a0) != headWord (u0.drop a0)
            then some (leadCount isLocalChar v + 1 + d0 + 1 + a0)
            else none)
      | _ => none) d = some z := by
    simp only [hdot]
    exact hz
  rcases findSome?_isSome_of_mem (descList (leadCount isDomainChar t) 1)
    (fun d0 => match t.drop d0 with
      | '.' :: u0 => (descList (leadCount isAsciiAlpha u0) 2).findSome?
          (fun a0 => if lastWord (u0.take a0) != headWord (u0.drop a0)
            then some (leadCount isLocalChar v + 1 + d0 + 1 + a0)
            else none)
      | _ => none)
    d z ((descList_mem _ _ _).mpr ⟨hd1, hd2⟩) houter with ⟨z2, hz2⟩
  exact ⟨z2, hz2⟩

end Javaspectre

namespace Javaspectre

/-! ## Claim C3, 5 - derived email facts -/

/-- Chained suffix extraction through the email match structure. -/
theorem email_drop_len (v t u : List Char) (d a : Nat)
    (hdrop : v.drop (leadCount isLocalChar v) = '@' :: t)
    (hdot : t.drop d = '.' :: u) :
    v.drop (leadCount isLocalChar v + 1 + d + 1 + a) = u.drop a := by
  have h1 : v.drop (leadCount isLocalChar v + 1) = t := by
    have := List.drop_drop 1 (leadCount isLocalChar v) v
    rw [hdrop] at this
    simpa [Nat.add_comm] using this.symm
  have h2 : v.drop (leadCount isLocalChar v + 1 + d) = t.drop d := by
    have := List.drop_drop d (leadCount isLocalChar v + 1) v
    rw [h1] at this
    exact this.symm
  have h3 : v.drop (leadCount isLocalChar v + 1 + d + 1) = u := by
    have := List.drop_drop 1 (leadCount isLocalChar v + 1 + d) v
    rw [h2, hdot] at this
    simpa using this.symm
  have := List.drop_drop a (leadCount isLocalChar v + 1 + d + 1) v
  rw [h3] at this
  exact this.symm

/-- Every email match is nonempty and fits in the text. -/
theorem email_bounds (pw : Bool) (v : List Char) (len : Nat)
    (h : emailCore pw v = some len) : 1 ≤ len ∧ len ≤ v.length := by
  rcases email_elim pw v len h with
    ⟨t, u, d, a, hL, _, hdrop, hd1, hd2, hdot, ha1, ha2, _, hlen⟩
  have hLle := leadCount_le_length isLocalChar v
  have hvt : v.length = leadCount isLocalChar v + 1 + t.length := by
    have := congrArg List.length hdrop
    simp [List.length_drop] at this
    omega
  have hdle : d ≤ t.length :=
    le_trans hd2 (leadCount_le_length isDomainChar t)
  have htu : t.length = d + 1 + u.length := by
    have := congrArg List.length hdot
    simp [List.length_drop] at this
    omega
  have hau : a ≤ u.length :=
    le_trans ha2 (leadCount_le_length isAsciiAlpha u)
  omega

/-- An email match begins at a word boundary. -/
theorem email_startB (pw : Bool) (v : List Char) (len : Nat)
    (h : emailCore pw v = some len) : pw ≠ headWord v := by
  rcases email_elim pw v len h with ⟨_, _, _, _, _, hpw, _⟩
  exact hpw

/-- The character after an email match is not a word character. -/
theorem email_endW (pw : Bool) (v : List Char) (len : Nat)
    (h : emailCore pw v = some len) : headWord (v.drop len) = false := by
  rcases email_elim pw v len h with
    ⟨t, u, d, a, hL, _, hdrop, hd1, hd2, hdot, ha1, ha2, hb, hlen⟩
  have htake : lastWord (u.take a) = true := by
    apply lastWord_all
    · intro hnil
      rcases List.take_eq_nil_iff.mp hnil with h0 | h0
      · omega
      · rw [h0] at ha2
        simp [leadCount] at ha2
        omega
    · intro c hc
      apply word_of_alpha
      have hsub : u.take a ⊆ u.take (leadCount isAsciiAlpha u) := by
        rw [show u.take a = (u.take (leadCount isAsciiAlpha u)).take a from by
          rw [List.take_take]
          rw [Nat.min_eq_left ha2]]
        exact List.take_subset _ _
      exact leadCount_take_all isAsciiAlpha u c (hsub hc)
  rw [htake] at hb
  have hfalse : headWord (u.drop a) = false := by
    cases hk : headWord (u.drop a)
    · rfl
    · rw [hk] at hb; simp at hb
  rw [hlen, email_drop_len v t u d a hdrop hdot]
  exact hfalse

/-- An email match starts with a local-class character. -/
theorem email_first_local (pw : Bool) (c : Char) (w : List Char) (len : Nat)
    (h : emailCore pw (c :: w) = some len) : isLocalChar c = true := by
  rcases email_elim pw (c :: w) len h with ⟨_, _, _, _, hL, _⟩
  by_contra hc
  simp at hc
  rw [show leadCount isLocalChar (c :: w) = 0 from by
    simp [leadCount, hc]] at hL
  omega

/-- Email boundary failure on a doubly non-word junction. -/
theorem email_headnw (v : List Char) (h : headWord v = false) :
    emailCore false v = none := by
  unfold emailCore
  by_cases hL : leadCount isLocalChar v = 0
  · simp [hL]
  · rw [if_neg hL, h]
    simp

end Javaspectre

namespace Javaspectre

/-! ## Claim C3, 6 - junction transfer for the fixed-width patterns

The replacement marker begins with the bracket character, which belongs to
no character class of the three patterns. A match attempt that would need to
read past the junction into the marker therefore fails, and an attempt that
only touches the junction through its trailing boundary behaves the same
over the original continuation, thanks to the boundary coherence of the
replaced match. -/

/-- The opening bracket of the marker is in no class. -/
theorem lbrack_not_digit : isDigit09 '[' = false := by decide

/-- The opening bracket is not a word character. -/
theorem lbrack_not_word : isWordChar '[' = false := by decide

/-- Probe congruence for digits. -/
theorem digitAtL_congr (v w : List Char) (k j : Nat) (h : v[k]? = w[j]?) :
    digitAtL v k = digitAtL w j := by
  unfold digitAtL
  rw [h]

/-- Probe congruence for word-ness. -/
theorem wordAtL_congr (v w : List Char) (k j : Nat) (h : v[k]? = w[j]?) :
    wordAtL v k = wordAtL w j := by
  unfold wordAtL
  rw [h]

/-- Probe congruence for character equality. -/
theorem charIsL_congr (v w : List Char) (k j : Nat) (c : Char)
    (h : v[k]? = w[j]?) : charIsL v k c = charIsL w j c := by
  unfold charIsL
  rw [h]

/-- The last character of the kept region, read through the concatenation. -/
theorem lastWord_junction (A2 : List Char) (x : Char) (X : List Char)
    (k : Nat) (hlen : A2.length = k + 1) :
    wordAtL (A2 ++ x :: X) k = lastWord A2 := by
  rw [wordAtL_congr (A2 ++ x :: X) A2 k k
    (getElem?_append_left_of_lt (by omega))]
  exact (lastWord_eq_wordAtL A2 k hlen).symm

/-- Junction transfer for pattern 1: a match attempt that succeeds against
the marker also succeeds against the original continuation, given the
boundary coherence of the replaced match. -/
theorem ssn_att (pwA : Bool) (A2 R : List Char) (m0 : Char) (T : List Char)
    (hA2 : A2 ≠ []) (hcoh : lastWord A2 = !isWordChar m0) (lenW : Nat)
    (h : ssnCore pwA (A2 ++ '[' :: R) = some lenW) :
    ∃ lenT, ssnCore pwA (A2 ++ m0 :: T) = some lenT := by
  unfold ssnCore at h
  split at h
  case isFalse => simp at h
  rename_i hcond
  simp only [Bool.and_eq_true] at hcond
  obtain ⟨⟨⟨⟨⟨⟨⟨⟨⟨⟨⟨⟨hbnd, h0⟩, h1⟩, h2⟩, h3⟩, h4⟩, h5⟩, h6⟩, h7⟩, h8⟩,
    h9⟩, h10⟩, hend⟩ := hcond
  have hj : (A2 ++ '[' :: R)[A2.length]? = some '[' :=
    getElem?_append_junction A2 '[' R
  have hpos : 1 ≤ A2.length := List.length_pos.mpr hA2
  have h11 : 11 ≤ A2.length := by
    by_contra hlt
    push_neg at hlt
    interval_cases hA : A2.length <;>
      simp_all [digitAtL, charIsL, lbrack_not_digit]
  have hbridge : ∀ k, k < A2.length →
      (A2 ++ '[' :: R)[k]? = (A2 ++ m0 :: T)[k]? := by
    intro k hk
    rw [getElem?_append_left_of_lt hk, getElem?_append_left_of_lt hk]
  have e0 := (digitAtL_congr _ _ 0 0 (hbridge 0 (by omega))).symm.trans h0
  have e1 := (digitAtL_congr _ _ 1 1 (hbridge 1 (by omega))).symm.trans h1
  have e2 := (digitAtL_congr _ _ 2 2 (hbridge 2 (by omega))).symm.trans h2
  have e3 := (charIsL_congr _ _ 3 3 '-' (hbridge 3 (by omega))).symm.trans h3
  have e4 := (digitAtL_congr _ _ 4 4 (hbridge 4 (by omega))).symm.trans h4
  have e5 := (digitAtL_congr _ _ 5 5 (hbridge 5 (by omega))).symm.trans h5
  have e6 := (charIsL_congr _ _ 6 6 '-' (hbridge 6 (by omega))).symm.trans h6
  have e7 := (digitAtL_congr _ _ 7 7 (hbridge 7 (by omega))).symm.trans h7
  have e8 := (digitAtL_congr _ _ 8 8 (hbridge 8 (by omega))).symm.trans h8
  have e9 := (digitAtL_congr _ _ 9 9 (hbridge 9 (by omega))).symm.trans h9
  have e10 := (digitAtL_congr _ _ 10 10 (hbridge 10 (by omega))).symm.trans h10
  have ehead : headWord (A2 ++ m0 :: T) = headWord (A2 ++ '[' :: R) := by
    rw [headWord_append _ _ hA2, headWord_append _ _ hA2]
  have ebnd : (pwA != headWord (A2 ++ m0 :: T)) = true := by
    rw [ehead]; exact hbnd
  have ew10 : wordAtL (A2 ++ m0 :: T) 10 = wordAtL (A2 ++ '[' :: R) 10 :=
    wordAtL_congr _ _ 10 10 (hbridge 10 (by omega)).symm
  have eend : (wordAtL (A2 ++ m0 :: T) 10 != wordAtL (A2 ++ m0 :: T) 11)
      = true := by
    rcases Nat.lt_or_ge 11 A2.length with hlt | hge
    · rw [ew10,
        wordAtL_congr (A2 ++ m0 :: T) (A2 ++ '[' :: R) 11 11
          ((hbridge 11 hlt).symm)]
      exact hend
    · have h11eq : A2.length = 11 := by omega
      have hW11 : wordAtL (A2 ++ '[' :: R) 11 = false := by
        have := getElem?_append_junction A2 '[' R
        rw [h11eq] at this
        unfold wordAtL
        rw [this]
        exact lbrack_not_word
      have hT11 : wordAtL (A2 ++ m0 :: T) 11 = isWordChar m0 := by
        have := getElem?_append_junction A2 m0 T
        rw [h11eq] at this
        unfold wordAtL
        rw [this]
      have hw10 : wordAtL (A2 ++ '[' :: R) 10 = true := by
        rw [hW11] at hend
        cases hx : wordAtL (A2 ++ '[' :: R) 10
        · rw [hx] at hend; simp at hend
        · rfl
      have hlastA2 : lastWord A2 = true := by
        rw [← lastWord_junction A2 '[' R 10 (by omega)]
        exact hw10
      have hm0 : isWordChar m0 = false := by
        rw [hlastA2] at hcoh
        cases hx : isWordChar m0
        · rfl
        · rw [hx] at hcoh; simp at hcoh
      rw [ew10, hw10, hT11, hm0]
      rfl
  refine ⟨11, ?_⟩
  unfold ssnCore
  rw [if_pos]
  rw [ebnd, e0, e1, e2, e3, e4, e5, e6, e7, e8, e9, e10, eend]
  rfl

end Javaspectre

namespace Javaspectre

/-! ## Claim C3, 7 - junction transfer for pattern 2 -/

/-- Junction transfer for pattern 2: a match attempt that succeeds against
the marker also succeeds against the original continuation. -/
theorem card_att (pwA : Bool) (A2 R : List Char) (m0 : Char) (T : List Char)
    (hA2 : A2 ≠ []) (hcoh : lastWord A2 = !isWordChar m0) (lenW : Nat)
    (h : cardCore pwA (A2 ++ '[' :: R) = some lenW) :
    ∃ lenT, cardCore pwA (A2 ++ m0 :: T) = some lenT := by
  have hall : ∀ k < 16, digitAtL (A2 ++ '[' :: R) k = true :=
    card_digits pwA _ lenW h
  unfold cardCore at h
  split at h
  case isFalse => simp at h
  rename_i hcond
  simp only [Bool.and_eq_true] at hcond
  obtain ⟨⟨hbnd, _⟩, hend⟩ := hcond
  have hj : (A2 ++ '[' :: R)[A2.length]? = some '[' :=
    getElem?_append_junction A2 '[' R
  have h16 : 16 ≤ A2.length := by
    by_contra hlt
    push_neg at hlt
    have := hall A2.length hlt
    unfold digitAtL at this
    rw [hj] at this
    have hd : isDigit09 '[' = true := by simpa using this
    exact absurd hd (by decide)
  have hbridge : ∀ k, k < A2.length →
      (A2 ++ '[' :: R)[k]? = (A2 ++ m0 :: T)[k]? := by
    intro k hk
    rw [getElem?_append_left_of_lt hk, getElem?_append_left_of_lt hk]
  have hallT : ((List.range 16).all (fun k => digitAtL (A2 ++ m0 :: T) k))
      = true := by
    rw [List.all_eq_true]
    intro k hk
    have hk16 := List.mem_range.mp hk
    exact (digitAtL_congr _ _ k k (hbridge k (by omega))).symm.trans
      (hall k hk16)
  have ehead : headWord (A2 ++ m0 :: T) = headWord (A2 ++ '[' :: R) := by
    rw [headWord_append _ _ hA2, headWord_append _ _ hA2]
  have ebnd : (pwA != headWord (A2 ++ m0 :: T)) = true := by
    rw [ehead]; exact hbnd
  have ew15 : wordAtL (A2 ++ m0 :: T) 15 = wordAtL (A2 ++ '[' :: R) 15 :=
    wordAtL_congr _ _ 15 15 (hbridge 15 (by omega)).symm
  have eend : (wordAtL (A2 ++ m0 :: T) 15 != wordAtL (A2 ++ m0 :: T) 16)
      = true := by
    rcases Nat.lt_or_ge 16 A2.length with hlt | hge
    · rw [ew15,
        wordAtL_congr (A2 ++ m0 :: T) (A2 ++ '[' :: R) 16 16
          ((hbridge 16 hlt).symm)]
      exact hend
    · have h16eq : A2.length = 16 := by omega
      have hW16 : wordAtL (A2 ++ '[' :: R) 16 = false := by
        have := getElem?_append_junction A2 '[' R
        rw [h16eq] at this
        unfold wordAtL
        rw [this]
        exact lbrack_not_word
      have hT16 : wordAtL (A2 ++ m0 :: T) 16 = isWordChar m0 := by
        have := getElem?_append_junction A2 m0 T
        rw [h16eq] at this
        unfold wordAtL
        rw [this]
      have hw15 : wordAtL (A2 ++ '[' :: R) 15 = true := by
        rw [hW16] at hend
        cases hx : wordAtL (A2 ++ '[' :: R) 15
        · rw [hx] at hend; simp at hend
        · rfl
      have hlastA2 : lastWord A2 = true := by
        rw [← lastWord_junction A2 '[' R 15 (by omega)]
        exact hw15
      have hm0 : isWordChar m0 = false := by
        rw [hlastA2] at hcoh
        cases hx : isWordChar m0
        · rfl
        · rw [hx] at hcoh; simp at hcoh
      rw [ew15, hw15, hT16, hm0]
      rfl
  refine ⟨16, ?_⟩
  unfold cardCore
  rw [if_pos]
  rw [ebnd, hallT, eend]
  rfl

end Javaspectre

namespace Javaspectre

/-! ## Claim C3, 8 - run-probe lemmas -/

/-- Characters strictly inside the greedy run satisfy the class, as indexed
probes. -/
theorem leadCount_all_lt (p : Char → Bool) (v : List Char) (k : Nat)
    (h : k < leadCount p v) : ∃ c, v[k]? = some c ∧ p c = true := by
  induction v generalizing k with
  | nil => simp [leadCount] at h
  | cons c w ih =>
      by_cases hc : p c = true
      · rw [show leadCount p (c :: w) = leadCount p w + 1 from by
          simp [leadCount, hc]] at h
        cases k with
        | zero => exact ⟨c, by simp, hc⟩
        | succ j =>
            rcases ih j (by omega) with ⟨c2, hc2, hp2⟩
            exact ⟨c2, by simpa using hc2, hp2⟩
      · rw [show leadCount p (c :: w) = 0 from by
          simp [leadCount, hc]] at h
        omega

/-- A failing probe bounds the greedy run. -/
theorem leadCount_le_of_stop (p : Char → Bool) (v : List Char) (k : Nat)
    (c : Char) (hk : v[k]? = some c) (hc : p c = false) :
    leadCount p v ≤ k := by
  by_contra hlt
  push_neg at hlt
  rcases leadCount_all_lt p v k hlt with ⟨c2, hc2, hp2⟩
  rw [hk] at hc2
  injection hc2 with he
  rw [he] at hc
  rw [hp2] at hc
  simp at hc

/-- A prefix of in-class probes forces the run at least that far. -/
theorem leadCount_ge_of_probes (p : Char → Bool) (v : List Char) (n : Nat)
    (h : ∀ j < n, ∃ c, v[j]? = some c ∧ p c = true) :
    n ≤ leadCount p v := by
  induction v generalizing n with
  | nil =>
      cases n with
      | zero => simp
      | succ m =>
          rcases h 0 (by omega) with ⟨c, hc, _⟩
          simp at hc
  | cons c w ih =>
      cases n with
      | zero => simp
      | succ m =>
          rcases h 0 (by omega) with ⟨c0, hc0, hp0⟩
          have : c0 = c := by simpa using hc0.symm
          subst this
          rw [show leadCount p (c0 :: w) = leadCount p w + 1 from by
            simp [leadCount, hp0]]
          have : m ≤ leadCount p w := by
            apply ih
            intro j hj
            rcases h (j + 1) (by omega) with ⟨c2, hc2, hp2⟩
            exact ⟨c2, by simpa using hc2, hp2⟩
          omega

/-- In-class probes up to a failing probe pin the run exactly. -/
theorem leadCount_eq_of_probes (p : Char → Bool) (v : List Char) (n : Nat)
    (hall : ∀ j < n, ∃ c, v[j]? = some c ∧ p c = true)
    (hstop : ∃ c, v[n]? = some c ∧ p c = false) :
    leadCount p v = n := by
  rcases hstop with ⟨c, hc, hp⟩
  have h1 := leadCount_ge_of_probes p v n hall
  have h2 := leadCount_le_of_stop p v n c hc hp
  omega

/-- The last character of a nonempty suffix is the last character of the
whole list. -/
theorem lastWord_drop_suffix (v : List Char) (k : Nat)
    (h : v.drop k ≠ []) : lastWord (v.drop k) = lastWord v := by
  conv_rhs => rw [show v = v.take k ++ v.drop k from (List.take_append_drop k v).symm]
  rw [lastWord_append _ _ h]

end Javaspectre

namespace Javaspectre

/-! ## Claim C3, 9 - junction transfer for the email pattern -/

/-- Junction transfer for pattern 3: an email attempt that succeeds against
the marker also succeeds against the original continuation. The greedy runs
of a successful attempt against the marker all stop strictly before the
bracket, except possibly the trailing boundary, which is flush against the
junction; in that flush case the boundary coherence of the replaced match
makes the boundary hold on the original continuation as well. -/
theorem email_att (pwA : Bool) (A2 R : List Char) (m0 : Char) (T : List Char)
    (hA2 : A2 ≠ []) (hcoh : lastWord A2 = !isWordChar m0) (lenW : Nat)
    (h : emailCore pwA (A2 ++ '[' :: R) = some lenW) :
    ∃ lenT, emailCore pwA (A2 ++ m0 :: T) = some lenT := by
  rcases email_elim pwA (A2 ++ '[' :: R) lenW h with
    ⟨t, u, d, a, hL1, hpw, hdrop, hd1, hd2, hdot, ha1, ha2, hb, _⟩
  set L := leadCount isLocalChar (A2 ++ '[' :: R) with hLdef
  have hjW : (A2 ++ '[' :: R)[A2.length]? = some '[' :=
    getElem?_append_junction A2 '[' R
  have hLle : L ≤ A2.length :=
    leadCount_le_of_stop _ _ _ '[' hjW (by decide)
  have hLlt : L < A2.length := by
    rcases Nat.lt_or_ge L A2.length with hx | hx
    · exact hx
    · exfalso
      have hLeq : L = A2.length := by omega
      rw [hLeq] at hdrop
      rw [List.drop_append_of_le_length (Nat.le_refl _),
        List.drop_length] at hdrop
      simp at hdrop
  have hA2dropL : A2.drop L = A2[L] :: A2.drop (L + 1) :=
    List.drop_eq_getElem_cons hLlt
  have hdrop2 : (A2 ++ '[' :: R).drop L = A2.drop L ++ '[' :: R :=
    List.drop_append_of_le_length (Nat.le_of_lt hLlt)
  rw [hdrop2, hA2dropL, List.cons_append] at hdrop
  have hA2L : A2[L] = '@' := by
    injection hdrop
  have ht : t = A2.drop (L + 1) ++ '[' :: R := by
    injection hdrop with h1 h2
    exact h2.symm
  set B := A2.drop (L + 1) with hBdef
  have hjB : (B ++ '[' :: R)[B.length]? = some '[' :=
    getElem?_append_junction B '[' R
  have hdB : d ≤ B.length := by
    have := leadCount_le_of_stop isDomainChar (B ++ '[' :: R) B.length '['
      hjB (by decide)
    have hd2c := hd2
    rw [ht] at hd2c
    omega
  have hdlt : d < B.length := by
    rcases Nat.lt_or_ge d B.length with hx | hx
    · exact hx
    · exfalso
      have hdeq : d = B.length := by omega
      rw [ht, hdeq] at hdot
      rw [List.drop_append_of_le_length (Nat.le_refl _),
        List.drop_length] at hdot
      simp at hdot
  have hBdropd : B.drop d = B[d] :: B.drop (d + 1) :=
    List.drop_eq_getElem_cons hdlt
  have hdot2 : t.drop d = B.drop d ++ '[' :: R := by
    rw [ht]
    exact List.drop_append_of_le_length (Nat.le_of_lt hdlt)
  rw [hdot2, hBdropd, List.cons_append] at hdot
  have hBd : B[d] = '.' := by
    injection hdot
  have hu : u = B.drop (d + 1) ++ '[' :: R := by
    injection hdot with h1 h2
    exact h2.symm
  set C := B.drop (d + 1) with hCdef
  have hjC : (C ++ '[' :: R)[C.length]? = some '[' :=
    getElem?_append_junction C '[' R
  have haC : a ≤ C.length := by
    have := leadCount_le_of_stop isAsciiAlpha (C ++ '[' :: R) C.length '['
      hjC (by decide)
    have ha2c := ha2
    rw [hu] at ha2c
    omega
  -- transfer of the local stage
  have hLT : leadCount isLocalChar (A2 ++ m0 :: T) = L := by
    apply leadCount_eq_of_probes
    · intro j hj
      rcases leadCount_all_lt isLocalChar (A2 ++ '[' :: R) j (by omega)
        with ⟨c, hc, hp⟩
      refine ⟨c, ?_, hp⟩
      rw [getElem?_append_left_of_lt (by omega)] at hc ⊢
      exact hc
    · refine ⟨'@', ?_, by decide⟩
      rw [getElem?_append_left_of_lt hLlt, List.getElem?_eq_getElem hLlt,
        hA2L]
  have hdropT : (A2 ++ m0 :: T).drop L = '@' :: (B ++ m0 :: T) := by
    rw [List.drop_append_of_le_length (Nat.le_of_lt hLlt), hA2dropL, hA2L]
    rfl
  -- transfer of the domain stage
  have hd2T : d ≤ leadCount isDomainChar (B ++ m0 :: T) := by
    apply leadCount_ge_of_probes
    intro j hj
    have hjlt : j < leadCount isDomainChar t := by
      omega
    rcases leadCount_all_lt isDomainChar t j hjlt with ⟨c, hc, hp⟩
    refine ⟨c, ?_, hp⟩
    rw [ht] at hc
    rw [getElem?_append_left_of_lt (by omega)] at hc ⊢
    exact hc
  have hdotT : (B ++ m0 :: T).drop d = '.' :: (C ++ m0 :: T) := by
    rw [List.drop_append_of_le_length (Nat.le_of_lt hdlt), hBdropd, hBd]
    rfl
  -- transfer of the top-level-domain stage
  have ha2T : a ≤ leadCount isAsciiAlpha (C ++ m0 :: T) := by
    apply leadCount_ge_of_probes
    intro j hj
    have hjlt : j < leadCount isAsciiAlpha u := by omega
    rcases leadCount_all_lt isAsciiAlpha u j hjlt with ⟨c, hc, hp⟩
    refine ⟨c, ?_, hp⟩
    rw [hu] at hc
    rw [getElem?_append_left_of_lt (by omega)] at hc ⊢
    exact hc
  have htakeEq : (C ++ m0 :: T).take a = u.take a := by
    rw [hu, List.take_append_of_le_length haC,
      List.take_append_of_le_length haC]
  -- the trailing boundary
  have hbT : (lastWord ((C ++ m0 :: T).take a)
      != headWord ((C ++ m0 :: T).drop a)) = true := by
    rcases Nat.lt_or_ge a C.length with hx | hx
    · have hCdnil : C.drop a ≠ [] := by
        intro hnil
        have := congrArg List.length hnil
        simp at this
        omega
      have h1 : (C ++ m0 :: T).drop a = C.drop a ++ m0 :: T :=
        List.drop_append_of_le_length (Nat.le_of_lt hx)
      have h2 : u.drop a = C.drop a ++ '[' :: R := by
        rw [hu]
        exact List.drop_append_of_le_length (Nat.le_of_lt hx)
      rw [htakeEq, h1, headWord_append _ _ hCdnil]
      rw [h2, headWord_append _ _ hCdnil] at hb
      exact hb
    · have haeq : a = C.length := by omega
      have hCnil : C ≠ [] := by
        intro hnil
        have hClen : C.length = 0 := by rw [hnil]; rfl
        omega
      have h2 : u.drop a = '[' :: R := by
        rw [hu, haeq, List.drop_append_of_le_length (Nat.le_refl _),
          List.drop_length]
        rfl
      have h1 : (C ++ m0 :: T).drop a = m0 :: T := by
        rw [haeq, List.drop_append_of_le_length (Nat.le_refl _),
          List.drop_length]
        rfl
      have hCtake : u.take a = C := by
        rw [hu, List.take_append_of_le_length (by omega), haeq,
          List.take_length]
      have hlastu : lastWord (u.take a) = true := by
        rw [h2] at hb
        have : headWord ('[' :: R) = false := by
          unfold headWord
          exact lbrack_not_word
        rw [this] at hb
        cases hx2 : lastWord (u.take a)
        · rw [hx2] at hb; simp at hb
        · rfl
      have hlastC : lastWord C = true := by
        rw [hCtake] at hlastu
        exact hlastu
      have hCsuffix : C = A2.drop (d + 1 + (L + 1)) := by
        rw [hCdef, hBdef, List.drop_drop]
        congr 1
        omega
      have hlastA2 : lastWord A2 = true := by
        rw [← lastWord_drop_suffix A2 (d + 1 + (L + 1))
          (by rw [← hCsuffix]; exact hCnil)]
        rw [← hCsuffix]
        exact hlastC
      have hm0 : isWordChar m0 = false := by
        rw [hlastA2] at hcoh
        cases hx2 : isWordChar m0
        · rfl
        · rw [hx2] at hcoh; simp at hcoh
      rw [htakeEq, hCtake, h1, hlastC]
      rw [show headWord (m0 :: T) = isWordChar m0 from rfl, hm0]
      rfl
  -- assemble
  have hheadEq : headWord (A2 ++ m0 :: T) = headWord (A2 ++ '[' :: R) := by
    rw [headWord_append _ _ hA2, headWord_append _ _ hA2]
  apply email_build pwA (A2 ++ m0 :: T) (B ++ m0 :: T) (C ++ m0 :: T) d a
  · omega
  · rw [hheadEq]; exact hpw
  · rw [hLT]; exact hdropT
  · exact hd1
  · exact hd2T
  · exact hdotT
  · exact ha1
  · exact ha2T
  · exact hbT

end Javaspectre

namespace Javaspectre

/-! ## Claim C3, 10 - no match starts inside the marker -/

/-- The marker as an explicit character list. -/
theorem redactedMarker_eq :
    redactedMarker = ['[', 'R', 'E', 'D', 'A', 'C', 'T', 'E', 'D', ']'] := rfl

/-- Pattern 1 cannot start inside the marker: no marker character is a
digit. -/
theorem ssn_marker (pwX : Bool) (k : Nat) (w : List Char) (hk : k ≤ 9) :
    ssnCore pwX (redactedMarker.drop k ++ w) = none := by
  cases hsome : ssnCore pwX (redactedMarker.drop k ++ w) with
  | none => rfl
  | some len =>
      exfalso
      rw [redactedMarker_eq] at hsome
      interval_cases k <;>
        exact absurd (ssn_first_digit _ _ _ _ hsome) (by decide)

/-- Pattern 2 cannot start inside the marker. -/
theorem card_marker (pwX : Bool) (k : Nat) (w : List Char) (hk : k ≤ 9) :
    cardCore pwX (redactedMarker.drop k ++ w) = none := by
  cases hsome : cardCore pwX (redactedMarker.drop k ++ w) with
  | none => rfl
  | some len =>
      exfalso
      rw [redactedMarker_eq] at hsome
      interval_cases k <;>
        exact absurd (card_first_digit _ _ _ _ hsome) (by decide)

/-- An email attempt starting on a run of local characters that ends at a
closing bracket fails: the local run cannot reach an at sign. -/
theorem email_letters_block (pwX : Bool) (pref : List Char) (w : List Char)
    (hlocal : ∀ c ∈ pref, isLocalChar c = true) :
    emailCore pwX (pref ++ ']' :: w) = none := by
  cases hsome : emailCore pwX (pref ++ ']' :: w) with
  | none => rfl
  | some len =>
      exfalso
      rcases email_elim _ _ _ hsome with ⟨t, _, _, _, _, _, hdrop, _⟩
      have hL : leadCount isLocalChar (pref ++ ']' :: w) = pref.length := by
        rw [leadCount_append_all _ _ _ hlocal,
          show leadCount isLocalChar (']' :: w) = 0 from by
            simp [leadCount, (by decide : isLocalChar ']' = false)]]
        omega
      rw [hL, List.drop_append_of_le_length (Nat.le_refl _),
        List.drop_length] at hdrop
      simp at hdrop

/-- Pattern 3 cannot start inside the marker. -/
theorem email_marker (pwX : Bool) (k : Nat) (w : List Char) (hk : k ≤ 9) :
    emailCore pwX (redactedMarker.drop k ++ w) = none := by
  rw [redactedMarker_eq]
  interval_cases k
  · cases hsome : emailCore pwX
        (List.drop 0 ['[', 'R', 'E', 'D', 'A', 'C', 'T', 'E', 'D', ']'] ++ w) with
    | none => rfl
    | some len =>
        exact absurd (email_first_local _ _ _ _ hsome) (by decide)
  · exact email_letters_block pwX ['R', 'E', 'D', 'A', 'C', 'T', 'E', 'D'] w
      (by decide)
  · exact email_letters_block pwX ['E', 'D', 'A', 'C', 'T', 'E', 'D'] w
      (by decide)
  · exact email_letters_block pwX ['D', 'A', 'C', 'T', 'E', 'D'] w (by decide)
  · exact email_letters_block pwX ['A', 'C', 'T', 'E', 'D'] w (by decide)
  · exact email_letters_block pwX ['C', 'T', 'E', 'D'] w (by decide)
  · exact email_letters_block pwX ['T', 'E', 'D'] w (by decide)
  · exact email_letters_block pwX ['E', 'D'] w (by decide)
  · exact email_letters_block pwX ['D'] w (by decide)
  · exact email_letters_block pwX [] w (by decide)

end Javaspectre

namespace Javaspectre

/-! ## Claim C3, 11 - the master no-match-in-output lemma -/

/-- Defining equation of the replacement loop with fuel left. -/
theorem replaceGo_succ_eq (core : Bool → List Char → Option Nat)
    (marker : List Char) (fuel : Nat) (pw : Bool) (s : List Char) :
    replaceGo core marker (fuel + 1) pw s =
      (match findCore core pw s with
        | none => s
        | some (g, len) =>
            s.take g ++ marker ++
              replaceGo core marker fuel (lastWord (s.take (g + len)))
                (s.drop (g + len))) := rfl

/-- The word-ness consumed by the whole marker is that of the closing
bracket: false. -/
theorem pwAfter_marker (x : Bool) : pwAfter x redactedMarker = false := rfl

/-- A Boolean inequality is a negation. -/
theorem bool_ne_not (a b : Bool) (h : a ≠ b) : a = !b := by
  cases a <;> cases b <;> simp_all

/-- The head of a kept-region-then-marker concatenation is never a word
character, when the source text also starts with a non-word character. -/
theorem headWord_take_marker (t y : List Char) (g : Nat)
    (h : headWord t = false) :
    headWord (t.take g ++ redactedMarker ++ y) = false := by
  cases t with
  | nil =>
      rw [List.take_nil, List.nil_append]
      exact (by decide : isWordChar '[' = false)
  | cons c r =>
      cases g with
      | zero => exact (by decide : isWordChar '[' = false)
      | succ g0 => exact h

/-- The replacement loop preserves a non-word head. -/
theorem replaceGo_headWord (core : Bool → List Char → Option Nat)
    (fuel : Nat) (pw : Bool) (t : List Char) (h : headWord t = false) :
    headWord (replaceGo core redactedMarker fuel pw t) = false := by
  cases fuel with
  | zero => exact h
  | succ fuel =>
      rw [replaceGo_succ_eq]
      cases hfind : findCore core pw t with
      | none => exact h
      | some gl =>
          obtain ⟨g, len⟩ := gl
          exact headWord_take_marker t _ g h

/-- Master lemma: after one replacement pass for pattern M with fuel to
spare, the output contains no match of pattern N, provided N is M itself or
N already had no match in the input; the hypotheses package the boundary
facts of M and the marker-immunity and junction-transfer facts of N. -/
theorem replaceGo_no_match
    (M N : Bool → List Char → Option Nat)
    (hM_bounds : ∀ pw v len, M pw v = some len → 1 ≤ len ∧ len ≤ v.length)
    (hM_startB : ∀ pw v len, M pw v = some len → pw ≠ headWord v)
    (hM_endW : ∀ pw v len, M pw v = some len → headWord (v.drop len) = false)
    (hN_headnw : ∀ v, headWord v = false → N false v = none)
    (hN_marker : ∀ pwX k w, k ≤ 9 → N pwX (redactedMarker.drop k ++ w) = none)
    (hN_att : ∀ pwA A2 R m0 T lenW, A2 ≠ [] → lastWord A2 = (!isWordChar m0) →
        N pwA (A2 ++ '[' :: R) = some lenW →
        ∃ lenT, N pwA (A2 ++ m0 :: T) = some lenT) :
    ∀ fuel t pw, t.length < fuel →
      (N = M ∨ findCore N pw t = none) →
      findCore N pw (replaceGo M redactedMarker fuel pw t) = none := by
  intro fuel
  induction fuel with
  | zero =>
      intro t pw hlt _
      exact absurd hlt (by omega)
  | succ fuel ih =>
      intro t pw hlt hside
      rw [replaceGo_succ_eq]
      cases hfind : findCore M pw t with
      | none =>
          rcases hside with hNM | hnone
          · rw [hNM]
            exact hfind
          · exact hnone
      | some gl =>
          obtain ⟨g, len⟩ := gl
          obtain ⟨hmatch, hmin⟩ := findCore_some M pw t g len hfind
          obtain ⟨hlen1, hlen2⟩ := hM_bounds _ _ _ hmatch
          rw [List.length_drop] at hlen2
          have hgl : g + len ≤ t.length := by omega
          have hendW := hM_endW _ _ _ hmatch
          have ht2head : headWord (t.drop (g + len)) = false := by
            have hdd : (t.drop g).drop len = t.drop (g + len) := by
              rw [List.drop_drop]
            rw [← hdd]
            exact hendW
          have htake_ne : t.take (g + len) ≠ [] := by
            intro hcon
            have hzero : (t.take (g + len)).length = 0 := by rw [hcon]; rfl
            rw [List.length_take] at hzero
            omega
          have hside2 : N = M ∨
              findCore N (lastWord (t.take (g + len)))
                (t.drop (g + len)) = none := by
            rcases hside with hNM | hnone
            · exact Or.inl hNM
            · right
              have hdropped := findCore_drop N pw (t.take (g + len))
                (t.drop (g + len)) (by rw [List.take_append_drop]; exact hnone)
              rwa [pwAfter_ne_nil _ _ htake_ne] at hdropped
          have hout_pw2 : findCore N (lastWord (t.take (g + len)))
              (replaceGo M redactedMarker fuel (lastWord (t.take (g + len)))
                (t.drop (g + len))) = none := by
            apply ih
            · rw [List.length_drop]
              omega
            · exact hside2
          have hout_head : headWord
              (replaceGo M redactedMarker fuel (lastWord (t.take (g + len)))
                (t.drop (g + len))) = false :=
            replaceGo_headWord M fuel _ _ ht2head
          have hout_false : findCore N false
              (replaceGo M redactedMarker fuel (lastWord (t.take (g + len)))
                (t.drop (g + len))) = none :=
            findCore_pw_switch N _ false _ hout_pw2 (hN_headnw _ hout_head)
          obtain ⟨m0, T, hdropg⟩ : ∃ m0 T, t.drop g = m0 :: T := by
            cases hd : t.drop g with
            | nil =>
                exfalso
                have hz : (t.drop g).length = 0 := by rw [hd]; rfl
                rw [List.length_drop] at hz
                omega
            | cons c r => exact ⟨c, r, rfl⟩
          have hstartB := hM_startB _ _ _ hmatch
          have hm0head : headWord (t.drop g) = isWordChar m0 := by
            rw [hdropg]
            rfl
          obtain ⟨out, hOUT⟩ : ∃ o, replaceGo M redactedMarker fuel
              (lastWord (t.take (g + len))) (t.drop (g + len)) = o := ⟨_, rfl⟩
          rw [hOUT] at hout_head hout_false
          show findCore N pw (t.take g ++ redactedMarker ++
              replaceGo M redactedMarker fuel (lastWord (t.take (g + len)))
                (t.drop (g + len))) = none
          rw [hOUT, List.append_assoc]
          apply findCore_build
          intro u1 u2 hsplit
          rcases List.append_eq_append_iff.mp hsplit.symm with
            ⟨A2, hA2, hu2⟩ | ⟨c1, hu1, hmk⟩
          · by_cases hA2e : A2 = []
            · subst hA2e
              rw [List.nil_append] at hu2
              rw [hu2]
              have hm := hN_marker (pwAfter pw u1) 0 out (by omega)
              rwa [List.drop_zero] at hm
            · cases hNres : N (pwAfter pw u1) u2 with
              | none => rfl
              | some lw =>
                  exfalso
                  have hu2c : u2 = A2 ++ '[' ::
                      (['R', 'E', 'D', 'A', 'C', 'T', 'E', 'D', ']'] ++ out) := by
                    rw [hu2, redactedMarker_eq]
                    rfl
                  rw [hu2c] at hNres
                  have htg_ne : t.take g ≠ [] := by
                    rw [hA2]
                    intro hc
                    exact hA2e (List.append_eq_nil.mp hc).2
                  have hcohne : lastWord A2 ≠ isWordChar m0 := by
                    intro hc
                    apply hstartB
                    rw [pwAfter_ne_nil pw _ htg_ne, hA2,
                      lastWord_append u1 A2 hA2e, hc, hm0head]
                  have hA2coh : lastWord A2 = (!isWordChar m0) :=
                    bool_ne_not _ _ hcohne
                  obtain ⟨lenT, hT⟩ := hN_att (pwAfter pw u1) A2
                    (['R', 'E', 'D', 'A', 'C', 'T', 'E', 'D', ']'] ++ out)
                    m0 T lw hA2e hA2coh hNres
                  have ht_eq : t = u1 ++ (A2 ++ m0 :: T) := by
                    conv_lhs => rw [← List.take_append_drop g t]
                    rw [hA2, hdropg, List.append_assoc]
                  have hu1t : t.take u1.length = u1 := by
                    rw [ht_eq]
                    simp
                  have hdropj : t.drop u1.length = A2 ++ m0 :: T := by
                    rw [ht_eq]
                    simp
                  have hA2pos : 0 < A2.length := List.length_pos.mpr hA2e
                  have hjg : u1.length + A2.length = g := by
                    have hlenA := congrArg List.length hA2
                    rw [List.length_take, List.length_append] at hlenA
                    omega
                  have hju : u1.length < g := by omega
                  rcases hside with hNM | hnone
                  · have hnone2 := hmin u1.length hju
                    rw [← hNM] at hnone2
                    rw [hu1t, hdropj] at hnone2
                    rw [hT] at hnone2
                    exact Option.noConfusion hnone2
                  · have hnone2 := findCore_point N pw u1 (A2 ++ m0 :: T)
                      (by rw [← ht_eq]; exact hnone)
                    rw [hT] at hnone2
                    exact Option.noConfusion hnone2
          · rcases List.append_eq_append_iff.mp hmk with
              ⟨o1, hc1, hout2⟩ | ⟨c2, hmk2, hu2⟩
            · have hpw1 : pwAfter pw u1 = pwAfter false o1 := by
                rw [hu1, hc1, pwAfter_append, pwAfter_append, pwAfter_marker]
              rw [hpw1]
              exact findCore_point N false o1 u2
                (by rw [← hout2]; exact hout_false)
            · by_cases hc2e : c2 = []
              · have hc1m : c1 = redactedMarker := by
                  rw [hc2e, List.append_nil] at hmk2
                  exact hmk2.symm
                have hpw1 : pwAfter pw u1 = false := by
                  rw [hu1, hc1m, pwAfter_append, pwAfter_marker]
                rw [hpw1, hu2, hc2e, List.nil_append]
                have hpt := findCore_point N false [] out
                  (by rw [List.nil_append]; exact hout_false)
                rwa [pwAfter_nil] at hpt
              · have hc2d : redactedMarker.drop c1.length = c2 := by
                  rw [hmk2]
                  simp
                have hk : c1.length ≤ 9 := by
                  have hlen10 : redactedMarker.length = 10 := by
                    rw [redactedMarker_eq]
                    rfl
                  have hlc := congrArg List.length hmk2
                  rw [hlen10, List.length_append] at hlc
                  have hc2pos : 0 < c2.length := List.length_pos.mpr hc2e
                  omega
                rw [hu2, ← hc2d]
                exact hN_marker (pwAfter pw u1) c1.length out hk

end Javaspectre

namespace Javaspectre

/-! ## Claim C3, 12 - instantiations and the idempotence theorem -/

/-- When the search already fails, the replacement pass is the identity. -/
theorem replace_all_of_no_match (core : Bool → List Char → Option Nat)
    (marker s : List Char) (h : findCore core false s = none) :
    replace_all core marker s = s := by
  show replaceGo core marker (s.length + 1) false s = s
  rw [replaceGo_succ_eq, h]

/-- The output of the SSN pass contains no SSN match. -/
theorem replace_ssn_no_ssn (s : List Char) :
    findCore ssnCore false (replace_all ssnCore redactedMarker s) = none := by
  show findCore ssnCore false
      (replaceGo ssnCore redactedMarker (s.length + 1) false s) = none
  exact replaceGo_no_match ssnCore ssnCore
    (fun pw v len h => ⟨(ssn_bounds pw v len h).1, (ssn_bounds pw v len h).2.1⟩)
    ssn_startB ssn_endW ssn_headnw ssn_marker
    (fun pwA A2 R m0 T lenW hA2 hcoh h => ssn_att pwA A2 R m0 T hA2 hcoh lenW h)
    (s.length + 1) s false (by omega) (Or.inl rfl)

/-- The output of the card pass contains no card match. -/
theorem replace_card_no_card (s : List Char) :
    findCore cardCore false (replace_all cardCore redactedMarker s) = none := by
  show findCore cardCore false
      (replaceGo cardCore redactedMarker (s.length + 1) false s) = none
  exact replaceGo_no_match cardCore cardCore
    (fun pw v len h => ⟨(card_bounds pw v len h).1, (card_bounds pw v len h).2.1⟩)
    card_startB card_endW card_headnw card_marker
    (fun pwA A2 R m0 T lenW hA2 hcoh h => card_att pwA A2 R m0 T hA2 hcoh lenW h)
    (s.length + 1) s false (by omega) (Or.inl rfl)

/-- The output of the email pass contains no email match. -/
theorem replace_email_no_email (s : List Char) :
    findCore emailCore false (replace_all emailCore redactedMarker s) = none := by
  show findCore emailCore false
      (replaceGo emailCore redactedMarker (s.length + 1) false s) = none
  exact replaceGo_no_match emailCore emailCore
    email_bounds email_startB email_endW email_headnw email_marker
    (fun pwA A2 R m0 T lenW hA2 hcoh h =>
      email_att pwA A2 R m0 T hA2 hcoh lenW h)
    (s.length + 1) s false (by omega) (Or.inl rfl)

/-- The card pass does not create an SSN match. -/
theorem replace_card_keeps_no_ssn (s : List Char)
    (h : findCore ssnCore false s = none) :
    findCore ssnCore false (replace_all cardCore redactedMarker s) = none := by
  show findCore ssnCore false
      (replaceGo cardCore redactedMarker (s.length + 1) false s) = none
  exact replaceGo_no_match cardCore ssnCore
    (fun pw v len hm =>
      ⟨(card_bounds pw v len hm).1, (card_bounds pw v len hm).2.1⟩)
    card_startB card_endW ssn_headnw ssn_marker
    (fun pwA A2 R m0 T lenW hA2 hcoh hm =>
      ssn_att pwA A2 R m0 T hA2 hcoh lenW hm)
    (s.length + 1) s false (by omega) (Or.inr h)

/-- The email pass does not create an SSN match. -/
theorem replace_email_keeps_no_ssn (s : List Char)
    (h : findCore ssnCore false s = none) :
    findCore ssnCore false (replace_all emailCore redactedMarker s) = none := by
  show findCore ssnCore false
      (replaceGo emailCore redactedMarker (s.length + 1) false s) = none
  exact replaceGo_no_match emailCore ssnCore
    email_bounds email_startB email_endW ssn_headnw ssn_marker
    (fun pwA A2 R m0 T lenW hA2 hcoh hm =>
      ssn_att pwA A2 R m0 T hA2 hcoh lenW hm)
    (s.length + 1) s false (by omega) (Or.inr h)

/-- The email pass does not create a card match. -/
theorem replace_email_keeps_no_card (s : List Char)
    (h : findCore cardCore false s = none) :
    findCore cardCore false (replace_all emailCore redactedMarker s) = none := by
  show findCore cardCore false
      (replaceGo emailCore redactedMarker (s.length + 1) false s) = none
  exact replaceGo_no_match emailCore cardCore
    email_bounds email_startB email_endW card_headnw card_marker
    (fun pwA A2 R m0 T lenW hA2 hcoh hm =>
      card_att pwA A2 R m0 T hA2 hcoh lenW hm)
    (s.length + 1) s false (by omega) (Or.inr h)

/-- C3: redact_text is idempotent - applying it to its own output changes
nothing, because the sanitized text contains no match of any of the three
patterns (the replacement marker starts and ends with bracket characters
that belong to no pattern class and every pattern is word-boundary
delimited). -/
theorem redact_text_idempotent (text : String) :
    redact_text (redact_text text) = redact_text text := by
  have key : ∀ s : List Char,
      replace_all emailCore redactedMarker
        (replace_all cardCore redactedMarker
          (replace_all ssnCore redactedMarker
            (replace_all emailCore redactedMarker
              (replace_all cardCore redactedMarker
                (replace_all ssnCore redactedMarker s))))) =
      replace_all emailCore redactedMarker
        (replace_all cardCore redactedMarker
          (replace_all ssnCore redactedMarker s)) := by
    intro s
    have h1 : findCore ssnCore false
        (replace_all ssnCore redactedMarker s) = none :=
      replace_ssn_no_ssn s
    have h2 : findCore ssnCore false
        (replace_all cardCore redactedMarker
          (replace_all ssnCore redactedMarker s)) = none :=
      replace_card_keeps_no_ssn _ h1
    have h3 : findCore ssnCore false
        (replace_all emailCore redactedMarker
          (replace_all cardCore redactedMarker
            (replace_all ssnCore redactedMarker s))) = none :=
      replace_email_keeps_no_ssn _ h2
    have h4 : findCore cardCore false
        (replace_all cardCore redactedMarker
          (replace_all ssnCore redactedMarker s)) = none :=
      replace_card_no_card _
    have h5 : findCore cardCore false
        (replace_all emailCore redactedMarker
          (replace_all cardCore redactedMarker
            (replace_all ssnCore redactedMarker s))) = none :=
      replace_email_keeps_no_card _ h4
    have h6 : findCore emailCore false
        (replace_all emailCore redactedMarker
          (replace_all cardCore redactedMarker
            (replace_all ssnCore redactedMarker s))) = none :=
      replace_email_no_email _
    rw [replace_all_of_no_match ssnCore redactedMarker _ h3,
      replace_all_of_no_match cardCore redactedMarker _ h5,
      replace_all_of_no_match emailCore redactedMarker _ h6]
  exact congrArg String.mk (key text.data)

end Javaspectre
